import Mathlib

/-!
Verification development for the gumdrop option-parsing library.

The runtime crate (src/lib.rs) provides the argument tokenizer
(`Parser`, `Opt`, `next_opt`, `next_arg`) together with the error type;
the derive crate (gumdrop_derive/src/lib.rs) generates, for each declared
record, a registry of option bindings, free-argument slots, an optional
command slot and the parse loop operating over them.

The embedding below models strings as lists of characters (Rust `&str`
slicing in the tokenizer always happens at character boundaries of the
ASCII prefix `--` or at a matched character, so character-level splitting
agrees with the byte-level source).  Character classification functions
(`Char.isLower`, `Char.toLower`, `Char.isWhitespace`) model their Rust
counterparts on ASCII data, which is the domain of Rust identifiers and
option names exercised here.

The code generated by the derive crate is embedded as an interpreter over
a `Registry` value: each `quote!` template of `derive_options_struct`
(and of the relaxed `derive_optionscore_struct`) becomes the
corresponding branch of `parseLoop` (resp. `parseLoopCore`), and the
construction-time field loop becomes `buildFields`/`finalizeRegistry`.
User-supplied conversion functions (`FromStr` instances, `parse(...)`
attributes) are external collaborators of the source and are carried as
function-valued fields.  Subcommand delegation happens in the source via
trait dispatch (`Options::parse_command` on the payload type); the
command table therefore stores the delegate parse functions themselves.
-/

set_option maxHeartbeats 1000000

namespace Gumdrop

/-- Argument strings, modelled at character level. -/
abbrev Str := List Char

/-- Mirrors `enum ParsingStyle` of src/lib.rs. -/
inductive ParsingStyle where
  | AllOptions
  | StopAtFirstFree
deriving DecidableEq, Repr

/-- Mirrors `enum Opt<'a>` of src/lib.rs: one token of the argument stream. -/
inductive Opt where
  | Short (c : Char)
  | Long (name : Str)
  | LongWithArg (name : Str) (value : Str)
  | Free (value : Str)
deriving DecidableEq, Repr

/-- Mirrors `struct Parser` of src/lib.rs: the remaining-argument cursor,
the pending short-cluster cursor, the parsing style and the terminated flag. -/
structure Parser where
  args : List Str
  cur : Option (List Char)
  style : ParsingStyle
  terminated : Bool
deriving DecidableEq, Repr

/-- Mirrors `Parser::new`. -/
def Parser.new (args : List Str) (style : ParsingStyle) : Parser :=
  ⟨args, none, style, false⟩

/-- Splits a character list at the first `=`, mirroring
`long.find('=')` followed by the two slices in `Parser::next_opt`. -/
def splitAtEq : Str → Option (Str × Str)
  | [] => none
  | c :: cs =>
    if c = '=' then some ([], cs)
    else
      match splitAtEq cs with
      | some (n, v) => some (c :: n, v)
      | none => none

/-- Mirrors `Parser::next_opt` of src/lib.rs.  The `cur.take()` of the
source is reflected by resetting `cur` to `none` before the main match. -/
def Parser.next_opt (p : Parser) : Option Opt × Parser :=
  match p.cur with
  | some (c :: cs) => (some (Opt.Short c), { p with cur := some cs })
  | _ =>
    let p := { p with cur := none }
    if p.terminated then
      match p.args with
      | [] => (none, p)
      | a :: rest => (some (Opt.Free a), { p with args := rest })
    else
      match p.args with
      | [] => (none, p)
      | a :: rest =>
        let p := { p with args := rest }
        if a = ['-'] then
          if p.style = ParsingStyle.StopAtFirstFree then
            (some (Opt.Free a), { p with terminated := true })
          else
            (some (Opt.Free a), p)
        else if a = ['-', '-'] then
          let p := { p with terminated := true }
          match p.args with
          | [] => (none, { p with args := [] })
          | b :: rest2 => (some (Opt.Free b), { p with args := rest2 })
        else if ['-', '-'].isPrefixOf a then
          match splitAtEq (a.drop 2) with
          | some (n, v) => (some (Opt.LongWithArg n v), p)
          | none => (some (Opt.Long (a.drop 2)), p)
        else if ['-'].isPrefixOf a then
          match a.drop 1 with
          | c :: cs => (some (Opt.Short c), { p with cur := some cs })
          | [] => (none, { p with cur := some [] })
        else
          if p.style = ParsingStyle.StopAtFirstFree then
            (some (Opt.Free a), { p with terminated := true })
          else
            (some (Opt.Free a), p)

/-- Mirrors `Parser::next_arg` of src/lib.rs: a non-empty cluster
remainder is consumed whole, otherwise the next raw argument is taken. -/
def Parser.next_arg (p : Parser) : Option Str × Parser :=
  let q : Parser := { p with cur := none }
  match p.cur with
  | some cs =>
    if cs ≠ [] then (some cs, q)
    else
      match q.args with
      | [] => (none, q)
      | a :: rest => (some a, { q with args := rest })
  | none =>
    match q.args with
    | [] => (none, q)
    | a :: rest => (some a, { q with args := rest })

/-- Stream of tokens produced by iterating `next_opt`, indexed by fuel. -/
def Parser.tokens (p : Parser) : Nat → List Opt
  | 0 => []
  | fuel + 1 =>
    match p.next_opt with
    | (none, _) => []
    | (some t, q) => t :: q.tokens fuel

/-- Total remaining input size: every emitted token strictly decreases it. -/
def Parser.size (p : Parser) : Nat :=
  p.args.foldr (fun a n => a.length + 1 + n) 0 +
    (match p.cur with
     | some cs => cs.length
     | none => 0)

/-- Recognizes a `Free` token. -/
def Opt.isFree : Opt → Bool
  | .Free _ => true
  | _ => false

/-- Mirrors `enum ErrorKind` of src/lib.rs (the payload of `gumdrop::Error`).
Display strings carried by the variants are kept as character lists. -/
inductive Err where
  | FailedParse (opt : Str) (msg : Str)
  | FailedParseDefault (option : Str) (value : Str) (msg : Str)
  | InsufficientArguments (opt : Str) (expected : Nat) (found : Nat)
  | MissingArgument (opt : Str)
  | MissingCommand
  | MissingRequired (opt : Str)
  | MissingRequiredCommand
  | MissingRequiredFree
  | UnexpectedArgument (opt : Str)
  | UnexpectedSingleArgument (opt : Str) (n : Nat)
  | UnexpectedFree (arg : Str)
  | UnrecognizedCommand (name : Str)
  | UnrecognizedLongOption (name : Str)
  | UnrecognizedShortOption (c : Char)
deriving DecidableEq, Repr

/-- Mirrors `Opt::to_string` of src/lib.rs, used for error displays. -/
def Opt.to_string : Opt → Str
  | .Short c => ['-', c]
  | .Long s => '-' :: '-' :: s
  | .LongWithArg s _ => '-' :: '-' :: s
  | .Free _ => "free".toList

/-- Mirrors `struct ParseMethod` of the derive crate: the conversion
function used on an argument string and the fixed tuple arity, if any.
The conversion function stands for the generated call to `FromStr` or to
a user `parse(...)` function; `Except.error msg` models a conversion
failure with message `msg`. -/
structure ParseMethod where
  parse_fn : Str → Except Str Str
  tuple_len : Option Nat

/-- Mirrors `ParseMethod::takes_arg` (gumdrop_derive lines 2069-2074). -/
def ParseMethod.takes_arg (m : ParseMethod) : Bool :=
  match m.tuple_len with
  | some 0 => false
  | _ => true

/-- Mirrors `enum Action` of the derive crate.  The accumulation method of
`Push` (named `push` for `Vec` fields, or an explicit `multi` method) is
modelled as appending to the field's list. -/
inductive Action where
  | Count
  | Push (m : ParseMethod)
  | SetField (m : ParseMethod)
  | SetOption (m : ParseMethod)
  | Switch

/-- Mirrors `Action::takes_arg`. -/
def Action.takes_arg : Action → Bool
  | .Push m | .SetField m | .SetOption m => m.takes_arg
  | _ => false

/-- Mirrors `Action::tuple_len`. -/
def Action.tuple_len : Action → Option Nat
  | .Push m | .SetField m | .SetOption m => m.tuple_len
  | _ => none

/-- Parse method of a value-taking action, if any. -/
def Action.parseMethod : Action → Option ParseMethod
  | .Push m | .SetField m | .SetOption m => some m
  | _ => none

/-- One parsed option value: a converted scalar or a fixed-arity tuple. -/
inductive Value where
  | scalar (s : Str)
  | tuple (ss : List Str)
deriving DecidableEq, Repr

/-- Value of one field of the decoded record.  `vCmd` stores a parsed
subcommand as the matched variant name together with the payload record. -/
inductive FieldVal where
  | vBool (b : Bool)
  | vCount (n : Nat)
  | vVal (v : Value)
  | vOpt (v : Option Value)
  | vList (vs : List Value)
  | vCmdNone
  | vCmd (name : Str) (sub : List FieldVal)

/-- Decoded record: one `FieldVal` per declared field, in declaration
order; field identifiers are positions in this list. -/
abbrev Record := List FieldVal

/-- Reads a field of the record. -/
def Record.get (r : Record) (i : Nat) : FieldVal :=
  r.getD i (.vBool false)

/-- Current counter value of a field, mirroring `+= 1` on a numeric field. -/
def Record.getCount (r : Record) (i : Nat) : Nat :=
  match r.get i with
  | .vCount n => n
  | _ => 0

/-- Current accumulated values of a `Vec` field. -/
def Record.getList (r : Record) (i : Nat) : List Value :=
  match r.get i with
  | .vList vs => vs
  | _ => []

/-- Truth of a boolean (help-flag) field. -/
def FieldVal.isTrue : FieldVal → Bool
  | .vBool b => b
  | _ => false

/-- One option binding produced by the construction loop for a field that
is neither free nor a command: mirrors `struct Opt` of the derive crate. -/
structure OptB where
  field : Nat
  fname : Str
  action : Action
  long : Option Str
  short : Option Char
  noShort : Bool
  required : Bool
  help : Option Str
  meta : Option Str
  dflt : Option Str

/-- Mirrors `enum FreeAction` of the derive crate. -/
inductive FreeAction where
  | Push
  | SetField
  | SetOption
deriving DecidableEq, Repr

/-- One free-argument slot: mirrors `struct FreeOpt` of the derive crate. -/
structure FreeSlot where
  field : Nat
  fname : Str
  action : FreeAction
  parse : Str → Except Str Str
  required : Bool
  help : Option Str

/-- Delegate parse function of a subcommand payload type, standing for the
trait-dispatched `Options::parse` of the generated payload impl. -/
abbrev SubParse := Parser → Except Err Record

/-- Command slot of a record: the field, its required flag and the
variant table of the command enum (name, delegate parse), mirroring the
match generated by `derive_options_enum::parse_command`. -/
structure CmdSlot where
  field : Nat
  required : Bool
  table : List (Str × SubParse)

/-- Registry of one record shape: everything `derive_options_struct`
collects from the field descriptors before emitting the parse loop.
`init` is the record initialized from the per-field defaults; `requireds`
lists, in push order, each required field with its prepared error. -/
structure Registry where
  init : Record
  opts : List OptB
  frees : List FreeSlot
  catchAll : Option FreeSlot
  command : Option CmdSlot
  helpFlags : List Nat
  requireds : List (Nat × Err)

/-- First binding whose short name matches, mirroring the ordered
match arms `Opt::Short(c)` of the generated loop. -/
def findShort (opts : List OptB) (c : Char) : Option OptB :=
  opts.find? (fun o => o.short = some c)

/-- First binding whose long name matches, mirroring the ordered match
arms `Opt::Long(l)` / `Opt::LongWithArg(l, _)` of the generated loop. -/
def findLong (opts : List OptB) (l : Str) : Option OptB :=
  opts.find? (fun o => o.long = some l)

/-- Mirrors the generated `mark_used` statement of an option binding. -/
def markUsed (used : List Nat) (required : Bool) (field : Nat) : List Nat :=
  if required then field :: used else used

/-- Stores an acquired value into the record, mirroring the assignment of
`make_action` / `make_action_arg` for the value-taking actions. -/
def assignValue (r : Record) (field : Nat) (act : Action) (v : Value) : Record :=
  match act with
  | .Push _ => r.set field (.vList (r.getList field ++ [v]))
  | .SetField _ => r.set field (.vVal v)
  | .SetOption _ => r.set field (.vOpt (some v))
  | .Count => r
  | .Switch => r

/-- Collects the remaining `k` of `n` tuple components, mirroring the `n`
sequential `next_arg` blocks generated by `ParseMethod::make_action_type`;
`found` counts the components already obtained. -/
def collectArgs (pf : Str → Except Str Str) (disp : Str) (n : Nat) :
    Nat → Nat → Parser → Except Err (List Str × Parser)
  | _, 0, p => .ok ([], p)
  | found, k + 1, p =>
    match p.next_arg with
    | (none, _) => .error (.InsufficientArguments disp n found)
    | (some a, q) =>
      match pf a with
      | .error e => .error (.FailedParse disp e)
      | .ok v =>
        match collectArgs pf disp n (found + 1) k q with
        | .error e => .error e
        | .ok (vs, q2) => .ok (v :: vs, q2)

/-- Acquires the value of a value-taking action when no argument was
attached to the token, mirroring `ParseMethod::make_action_type`. -/
def acquireValue (m : ParseMethod) (disp : Str) (p : Parser) :
    Except Err (Value × Parser) :=
  match m.tuple_len with
  | none =>
    match p.next_arg with
    | (none, _) => .error (.MissingArgument disp)
    | (some a, q) =>
      match m.parse_fn a with
      | .error e => .error (.FailedParse disp e)
      | .ok v => .ok (.scalar v, q)
  | some n =>
    match collectArgs m.parse_fn disp n 0 n p with
    | .error e => .error e
    | .ok (vs, q) => .ok (.tuple vs, q)

/-- Runs the generated handler of a matched `Short`/`Long` token
(`Opt::make_action`): mark the required flag, then perform the action,
pulling explicit values through `next_arg` as needed.  `disp` is the
display form `Opt::to_string` of the matched token. -/
def runOpt (o : OptB) (disp : Str) (p : Parser) (r : Record)
    (used : List Nat) : Except Err (Record × Parser × List Nat) :=
  let used := markUsed used o.required o.field
  match o.action with
  | .Count => .ok (r.set o.field (.vCount (r.getCount o.field + 1)), p, used)
  | .Switch => .ok (r.set o.field (.vBool true), p, used)
  | .Push m | .SetField m | .SetOption m =>
    match acquireValue m disp p with
    | .error e => .error e
    | .ok (v, q) => .ok (assignValue r o.field o.action v, q, used)

/-- Runs the generated handler of a `LongWithArg` token on a scalar
value-taking binding (`Opt::make_action_arg`): the attached value is
converted and stored directly, without consulting the parser. -/
def runOptArg (o : OptB) (disp : Str) (val : Str) (r : Record)
    (used : List Nat) : Except Err (Record × List Nat) :=
  let used := markUsed used o.required o.field
  match o.action with
  | .Push m | .SetField m | .SetOption m =>
    match m.parse_fn val with
    | .error e => .error (.FailedParse disp e)
    | .ok v => .ok (assignValue r o.field o.action (.scalar v), used)
  | _ => .ok (r, used)

/-- Runs one free-argument slot on a free token, mirroring the numbered
arms (and the push catch-all) of the generated `handle_free`: mark the
required flag, convert the value naming the slot's field on failure,
then assign per the slot's free action. -/
def runFreeSlot (s : FreeSlot) (fa : Str) (r : Record) (used : List Nat) :
    Except Err (Record × List Nat) :=
  let used := markUsed used s.required s.field
  match s.parse fa with
  | .error e => .error (.FailedParse s.fname e)
  | .ok v =>
    match s.action with
    | .Push => .ok (r.set s.field (.vList (r.getList s.field ++ [.scalar v])), used)
    | .SetField => .ok (r.set s.field (.vVal (.scalar v)), used)
    | .SetOption => .ok (r.set s.field (.vOpt (some (.scalar v))), used)

/-- Mirrors `parse_command` generated by `derive_options_enum` (and the
identical `derive_optionscore_enum`): exact, case-sensitive first-match
lookup of the command name, then delegation to the variant payload
type's own parse, wrapping the result in the variant. -/
def parseCommandTable (table : List (Str × SubParse)) (name : Str)
    (p : Parser) : Except Err (Str × Record) :=
  match table.find? (fun e => e.1 = name) with
  | some (cname, sp) =>
    match sp p with
    | .error e => .error e
    | .ok r => .ok (cname, r)
  | none => .error (.UnrecognizedCommand name)

/-- Post-loop checks of the generated `parse` (derive crate lines
1162-1168 and the identical 536-542): when no help-flag field is true,
the first required field not marked used yields its prepared error. -/
def finish (reg : Registry) (r : Record) (used : List Nat) :
    Except Err Record :=
  if reg.helpFlags.all (fun f => !(r.get f).isTrue) then
    match reg.requireds.find? (fun e => !used.contains e.1) with
    | some e => .error e.2
    | none => .ok r
  else
    .ok r

/-- Outcome of one iteration of the token loop: either the loop is over
(an error was returned or, after command delegation, the post-loop
checks ran), or it continues with updated state. -/
inductive StepOut where
  | done (res : Except Err Record)
  | cont (r : Record) (fc : Nat) (used : List Nat) (q : Parser)

/-- Body of one iteration of the token loop generated by
`derive_options_struct`, dispatching one token: the ordered match arms
over the collected bindings, the `LongWithArg` arity arms, the free-slot
arms, command delegation (which breaks the loop into the post-loop
checks), and the strict errors for unrecognized input. -/
def parseStep (reg : Registry) (r : Record) (fc : Nat) (used : List Nat)
    (tok : Opt) (q : Parser) : StepOut :=
  match tok with
  | .Short c =>
    match findShort reg.opts c with
    | some o =>
      match runOpt o (Opt.to_string tok) q r used with
      | .error e => .done (.error e)
      | .ok (r2, q2, used2) => .cont r2 fc used2 q2
    | none => .done (.error (.UnrecognizedShortOption c))
  | .Long l =>
    match findLong reg.opts l with
    | some o =>
      match runOpt o (Opt.to_string tok) q r used with
      | .error e => .done (.error e)
      | .ok (r2, q2, used2) => .cont r2 fc used2 q2
    | none => .done (.error (.UnrecognizedLongOption l))
  | .LongWithArg l v =>
    match findLong reg.opts l with
    | some o =>
      match o.action.tuple_len with
      | some n =>
        .done (.error (.UnexpectedSingleArgument (Opt.to_string tok) n))
      | none =>
        if o.action.takes_arg then
          match runOptArg o (Opt.to_string tok) v r used with
          | .error e => .done (.error e)
          | .ok (r2, used2) => .cont r2 fc used2 q
        else
          .done (.error (.UnexpectedArgument (Opt.to_string tok)))
    | none => .done (.error (.UnrecognizedLongOption l))
  | .Free fa =>
    if reg.frees.length ≠ 0 ∨ reg.catchAll.isSome then
      if h : fc < reg.frees.length then
        match runFreeSlot (reg.frees.get ⟨fc, h⟩) fa r used with
        | .error e => .done (.error e)
        | .ok (r2, used2) => .cont r2 (fc + 1) used2 q
      else
        match reg.catchAll with
        | some s =>
          match runFreeSlot s fa r used with
          | .error e => .done (.error e)
          | .ok (r2, used2) => .cont r2 fc used2 q
        | none => .done (.error (.UnexpectedFree fa))
    else
      match reg.command with
      | some cs =>
        let used2 := markUsed used cs.required cs.field
        match parseCommandTable cs.table fa q with
        | .error e => .done (.error e)
        | .ok (cname, sr) =>
          .done (finish reg (r.set cs.field (.vCmd cname sr)) used2)
      | none => .done (.error (.UnexpectedFree fa))

/-- Token loop of the `parse` generated by `derive_options_struct`,
one fuel unit per iteration (the source loop terminates because every
iteration consumes input; `Parser.size` bounds the iteration count). -/
def parseLoop (reg : Registry) (r : Record) (fc : Nat) (used : List Nat)
    (p : Parser) : Nat → Except Err Record
  | 0 => finish reg r used
  | fuel + 1 =>
    match p.next_opt with
    | (none, _) => finish reg r used
    | (some tok, q) =>
      match parseStep reg r fc used tok q with
      | .done res => res
      | .cont r2 fc2 used2 q2 => parseLoop reg r2 fc2 used2 q2 fuel

/-- Mirrors the generated `Options::parse`: defaults, zeroed used-set,
token loop, post-loop checks. -/
def parseRegistry (reg : Registry) (p : Parser) (fuel : Nat) :
    Except Err Record :=
  parseLoop reg reg.init 0 [] p fuel

/-- Mirrors `Options::parse_args`: runs the parse over a fresh parser,
with fuel covering every possible loop iteration. -/
def parseArgs (reg : Registry) (args : List Str) (style : ParsingStyle) :
    Except Err Record :=
  parseRegistry reg (Parser.new args style) ((Parser.new args style).size + 1)

/-- Body of one iteration of the token loop generated by
`derive_optionscore_struct`: identical to `parseStep` except that
unrecognized options and free arguments beyond the declared slots are
silently skipped (the error returns of the strict loop are commented out
in the source, lines 429-433, 491-496 and 527-532). -/
def parseStepCore (reg : Registry) (r : Record) (fc : Nat)
    (used : List Nat) (tok : Opt) (q : Parser) : StepOut :=
  match tok with
  | .Short c =>
    match findShort reg.opts c with
    | some o =>
      match runOpt o (Opt.to_string tok) q r used with
      | .error e => .done (.error e)
      | .ok (r2, q2, used2) => .cont r2 fc used2 q2
    | none => .cont r fc used q
  | .Long l =>
    match findLong reg.opts l with
    | some o =>
      match runOpt o (Opt.to_string tok) q r used with
      | .error e => .done (.error e)
      | .ok (r2, q2, used2) => .cont r2 fc used2 q2
    | none => .cont r fc used q
  | .LongWithArg l v =>
    match findLong reg.opts l with
    | some o =>
      match o.action.tuple_len with
      | some n =>
        .done (.error (.UnexpectedSingleArgument (Opt.to_string tok) n))
      | none =>
        if o.action.takes_arg then
          match runOptArg o (Opt.to_string tok) v r used with
          | .error e => .done (.error e)
          | .ok (r2, used2) => .cont r2 fc used2 q
        else
          .done (.error (.UnexpectedArgument (Opt.to_string tok)))
    | none => .cont r fc used q
  | .Free fa =>
    if reg.frees.length ≠ 0 ∨ reg.catchAll.isSome then
      if h : fc < reg.frees.length then
        match runFreeSlot (reg.frees.get ⟨fc, h⟩) fa r used with
        | .error e => .done (.error e)
        | .ok (r2, used2) => .cont r2 (fc + 1) used2 q
      else
        match reg.catchAll with
        | some s =>
          match runFreeSlot s fa r used with
          | .error e => .done (.error e)
          | .ok (r2, used2) => .cont r2 fc used2 q
        | none => .cont r fc used q
    else
      match reg.command with
      | some cs =>
        let used2 := markUsed used cs.required cs.field
        match parseCommandTable cs.table fa q with
        | .error e => .done (.error e)
        | .ok (cname, sr) =>
          .done (finish reg (r.set cs.field (.vCmd cname sr)) used2)
      | none => .cont r fc used q

/-- Token loop of the `parse` generated by `derive_optionscore_struct`. -/
def parseLoopCore (reg : Registry) (r : Record) (fc : Nat) (used : List Nat)
    (p : Parser) : Nat → Except Err Record
  | 0 => finish reg r used
  | fuel + 1 =>
    match p.next_opt with
    | (none, _) => finish reg r used
    | (some tok, q) =>
      match parseStepCore reg r fc used tok q with
      | .done res => res
      | .cont r2 fc2 used2 q2 => parseLoopCore reg r2 fc2 used2 q2 fuel

/-- Mirrors the generated `OptionsCore::parse`. -/
def parseRegistryCore (reg : Registry) (p : Parser) (fuel : Nat) :
    Except Err Record :=
  parseLoopCore reg reg.init 0 [] p fuel

/-- Mirrors `OptionsCore::parse_args`. -/
def parseCoreArgs (reg : Registry) (args : List Str) (style : ParsingStyle) :
    Except Err Record :=
  parseRegistryCore reg (Parser.new args style) ((Parser.new args style).size + 1)

/-- Mirrors the `parse` generated by `derive_options_enum`: the first
value position names the command, then delegation. -/
def enumParse (table : List (Str × SubParse)) (p : Parser) :
    Except Err (Str × Record) :=
  match p.next_arg with
  | (none, _) => .error .MissingCommand
  | (some a, q) => parseCommandTable table a q

/-- Shape of a declared field type, carrying exactly the distinctions
`Action::infer`, `FreeAction::infer` and `tuple_len` read off the syntax
tree: the head path name among `bool`/`Vec`/`Option`/other, the first
type parameter's presence and tuple arity when present, and tuple types
with their arity. -/
inductive TyShape where
  | bool
  | vec (param : Option (Option Nat))
  | option (param : Option (Option Nat))
  | other (param : Option (Option Nat))
  | tup (n : Nat)
deriving DecidableEq, Repr

/-- One normalized field descriptor, mirroring `AttrOpts` (after
`set_defaults`) together with the declared type shape, the field
identifier and the evaluated default value of the field.  The conversion
function `pf` stands for the field's `FromStr` instance or its
`parse(...)` function; `parseGiven` records whether a `parse(...)`
attribute was present (which `Action::infer` consults for `bool`). -/
structure FieldDesc where
  fname : Str
  shape : TyShape
  initVal : FieldVal
  pf : Str → Except Str Str
  parseGiven : Bool
  longAttr : Option Str
  noLong : Bool
  shortAttr : Option Char
  noShort : Bool
  isFree : Bool
  isCommand : Bool
  count : Bool
  helpFlagAttr : Bool
  noHelpFlag : Bool
  multi : Bool
  noMulti : Bool
  required : Bool
  help : Option Str
  metaAttr : Option Str
  dflt : Option Str

/-- Fall-through arm of `Action::infer` for path types (the `_` match
arm): an explicit `multi` method accumulates, otherwise plain set. -/
def inferOtherPath (d : FieldDesc) (param : Option (Option Nat)) : Action :=
  if d.multi then .Push ⟨d.pf, param.join⟩
  else .SetField ⟨d.pf, none⟩

/-- Mirrors `Action::infer` of the derive crate (lines 1315-1369). -/
def Action.infer (d : FieldDesc) : Action :=
  match d.shape with
  | .bool => if !d.parseGiven then .Switch else inferOtherPath d none
  | .vec param =>
    match param with
    | some pl => if !d.noMulti then .Push ⟨d.pf, pl⟩ else inferOtherPath d param
    | none => inferOtherPath d param
  | .option param =>
    match param with
    | some pl => .SetOption ⟨d.pf, pl⟩
    | none => inferOtherPath d none
  | .other param => inferOtherPath d param
  | .tup n => .SetField ⟨d.pf, some n⟩

/-- Mirrors `FreeAction::infer` of the derive crate (lines 1738-1758). -/
def FreeAction.infer (d : FieldDesc) : FreeAction :=
  match d.shape with
  | .option _ => .SetOption
  | .vec _ =>
    if !d.noMulti then .Push
    else if d.multi then .Push else .SetField
  | .bool | .other _ => if d.multi then .Push else .SetField
  | .tup _ => .SetField

/-- Mirrors `make_long_name`: underscores become hyphens. -/
def make_long_name (name : Str) : Str :=
  name.map (fun c => if c = '_' then '-' else c)

/-- Mirrors `make_short_name`: the field's first character if still
unreserved, else its uppercase form (single-character on the ASCII data
modelled here), else nothing. -/
def make_short_name (name : Str) (short : List Char) : Option Char :=
  match name with
  | [] => none
  | first :: _ =>
    if !short.contains first then some first
    else
      let upper := first.toUpper
      if !short.contains upper then some upper else none

/-- Mirrors `make_command_name`: lowercase characters are kept; any other
character is lowercased and preceded by a hyphen unless output is empty. -/
def make_command_name (name : Str) : Str :=
  name.foldl
    (fun res ch =>
      if ch.isLower then res ++ [ch]
      else (if res ≠ [] then res ++ ['-'] else res) ++ [ch.toLower])
    []

/-- Command-name derivation as the specification words it: the variant
identifier is lowercased throughout, and every character that is not
already lowercase — each point where the name transitions into lowercase
— is preceded by a hyphen, except at the very start (`FooBar` becomes
`foo-bar`).  Stated as a direct structural map for comparison with the
accumulator-based `make_command_name` of the source. -/
def kebabSpec : Str → Str
  | [] => []
  | c :: cs =>
    c.toLower ::
      cs.flatMap (fun ch => if ch.isLower then [ch] else ['-', ch.toLower])

/-- Mirrors `make_meta` (lines 2214-2233): the uppercased, hyphenated
field name, with ` VALUE` suffixes for tuple arities of two or more. -/
def make_meta (name : Str) (action : Action) : Str :=
  let base := (make_long_name name).map Char.toUpper
  match action.tuple_len with
  | some 0 => base
  | some 1 => base
  | none => base
  | some 2 => base ++ " VALUE".toList
  | some n => base ++ (List.range (n - 1)).flatMap
      (fun j => " VALUE".toList ++ (toString j).toList)

/-- Mirrors `validate_long_name` (lines 2191-2201). -/
def validate_long_name (name : Str) (names : List Str) :
    Except String Unit :=
  if name = [] ∨ name.head? = some '-' ∨ name.any Char.isWhitespace then
    .error "not a valid long option"
  else if names.contains name then
    .error "duplicate option name"
  else
    .ok ()

/-- Mirrors `validate_short_name` (lines 2203-2212). -/
def validate_short_name (c : Char) (names : List Char) :
    Except String Unit :=
  if c = '-' ∨ c.isWhitespace then
    .error "not a valid short option"
  else if names.contains c then
    .error "duplicate option name"
  else
    .ok ()

/-- Mirrors `Opt::display_form`.  The source unwraps the short name when
no long name is present; the impossible both-absent case (which panics in
the source just before the construction error for flagless options) is
rendered as a bare dash. -/
def display_form (o : OptB) : Str :=
  match o.long with
  | some l => '-' :: '-' :: l
  | none =>
    match o.short with
    | some c => ['-', c]
    | none => ['-']

/-- Tests whether the most recently collected free slot accumulates,
mirroring `free.last().map(|l| l.action.is_push())`. -/
def lastIsPush (frees : List FreeSlot) : Bool :=
  match frees.getLast? with
  | some last => last.action == FreeAction.Push
  | none => false

/-- Accumulated state of the construction loop over the field
descriptors, mirroring the local vectors of `derive_options_struct` /
`derive_optionscore_struct`. -/
structure BuildSt where
  longNames : List Str
  shortNames : List Char
  frees : List FreeSlot
  command : Option (Nat × Bool)
  requiredsFC : List (Nat × Err)
  options : List OptB
  helpFlags : List Nat

/-- One iteration of the construction loop over field descriptors
(identical in the Options and OptionsCore derives, lines 780-906 resp.
231-356): classify command/free fields, derive and validate names, infer
the help flag and the action, and collect the option binding. -/
def buildField (i : Nat) (d : FieldDesc) (st : BuildSt) :
    Except String BuildSt :=
  if d.isCommand then
    if st.command.isSome then
      .error "duplicate declaration of `command` field"
    else if !st.frees.isEmpty then
      .error "`command` and `free` options are mutually exclusive"
    else
      .ok { st with
        command := some (i, d.required),
        requiredsFC := st.requiredsFC ++
          (if d.required then [(i, Err.MissingRequiredCommand)] else []) }
  else if d.isFree then
    if st.command.isSome then
      .error "`command` and `free` options are mutually exclusive"
    else if lastIsPush st.frees then
      .error "only the final `free` option may be of type `Vec<T>`"
    else
      .ok { st with
        requiredsFC := st.requiredsFC ++
          (if d.required then [(i, Err.MissingRequiredFree)] else []),
        frees := st.frees ++
          [⟨i, d.fname, FreeAction.infer d, d.pf, d.required, d.help⟩] }
  else
    let long := if d.longAttr = none ∧ !d.noLong
      then some (make_long_name d.fname) else d.longAttr
    match (match long with
           | some l => validate_long_name l st.longNames
           | none => .ok ()) with
    | .error e => .error e
    | .ok _ =>
      match (match d.shortAttr with
             | some c => validate_short_name c st.shortNames
             | none => .ok ()) with
      | .error e => .error e
      | .ok _ =>
        let longNames := st.longNames ++
          (match long with | some l => [l] | none => [])
        let shortNames := st.shortNames ++
          (match d.shortAttr with | some c => [c] | none => [])
        let helpFlags :=
          if d.helpFlagAttr ∨ (!d.noHelpFlag ∧ long = some "help".toList)
          then st.helpFlags ++ [i] else st.helpFlags
        let action := if d.count then Action.Count else Action.infer d
        match (if action.takes_arg then
                .ok (match d.metaAttr with
                     | some m => some m
                     | none => some (make_meta d.fname action))
              else if d.metaAttr.isSome then
                Except.error "`meta` value is invalid for this field"
              else
                (.ok none : Except String (Option Str))) with
        | .error e => .error e
        | .ok meta =>
          .ok { st with
            longNames := longNames,
            shortNames := shortNames,
            helpFlags := helpFlags,
            options := st.options ++
              [⟨i, d.fname, action, long, d.shortAttr, d.noShort,
                d.required, d.help, meta, d.dflt⟩] }

/-- Runs the construction loop from field index `i`. -/
def buildFieldsGo : Nat → List FieldDesc → BuildSt → Except String BuildSt
  | _, [], st => .ok st
  | i, d :: rest, st =>
    match buildField i d st with
    | .error e => .error e
    | .ok st2 => buildFieldsGo (i + 1) rest st2

/-- Runs the construction loop over all field descriptors. -/
def buildFields (ds : List FieldDesc) : Except String BuildSt :=
  buildFieldsGo 0 ds ⟨[], [], [], none, [], [], []⟩

/-- Mirrors the automatic short-name pass of `derive_options_struct`
(lines 908-920), run after all explicit names are reserved.  The
OptionsCore derive omits this pass. -/
def assignShorts : List OptB → List Char → List OptB × List Char
  | [], sh => ([], sh)
  | o :: os, sh =>
    if o.short = none ∧ !o.noShort then
      match make_short_name o.fname sh with
      | some c =>
        let (os2, sh2) := assignShorts os (sh ++ [c])
        ({ o with short := some c } :: os2, sh2)
      | none =>
        let (os2, sh2) := assignShorts os sh
        (o :: os2, sh2)
    else
      let (os2, sh2) := assignShorts os sh
      (o :: os2, sh2)

/-- Mirrors the second loop over collected options (lines 922-944 resp.
361-383): push the prepared `MissingRequired` error of each required
option, and reject options with neither a long nor a short flag. -/
def optionsSecondLoop : List OptB → Except String (List (Nat × Err))
  | [] => .ok []
  | o :: os =>
    let req :=
      if o.required then [(o.field, Err.MissingRequired (display_form o))]
      else []
    if o.long = none ∧ o.short = none then
      .error "option has no long or short flags"
    else
      match optionsSecondLoop os with
      | .error e => .error e
      | .ok rest => .ok (req ++ rest)

/-- Mirrors the split of the free-slot list performed when generating
`handle_free` (lines 972-975): a final push-shaped slot becomes the
catch-all, the rest stay positional. -/
def popCatchAll (frees : List FreeSlot) : List FreeSlot × Option FreeSlot :=
  match frees.getLast? with
  | some last =>
    if last.action = FreeAction.Push then (frees.dropLast, some last)
    else (frees, none)
  | none => (frees, none)

/-- Registry construction of the Options derive: the field loop, the
automatic short-name pass, the second options loop and the free-slot
split.  `table` supplies the delegate parse table of the command field's
enum type when a command field is declared. -/
def build (ds : List FieldDesc) (table : List (Str × SubParse)) :
    Except String Registry :=
  match buildFields ds with
  | .error e => .error e
  | .ok st =>
    let options := (assignShorts st.options st.shortNames).1
    match optionsSecondLoop options with
    | .error e => .error e
    | .ok reqOpts =>
      let fa := popCatchAll st.frees
      .ok ⟨ds.map (fun d => d.initVal), options, fa.1, fa.2,
        st.command.map (fun e => ⟨e.1, e.2, table⟩),
        st.helpFlags, st.requiredsFC ++ reqOpts⟩

/-- Registry construction of the OptionsCore derive: identical to
`build` except that no automatic short names are assigned (source
comment at lines 358-360). -/
def buildCore (ds : List FieldDesc) (table : List (Str × SubParse)) :
    Except String Registry :=
  match buildFields ds with
  | .error e => .error e
  | .ok st =>
    match optionsSecondLoop st.options with
    | .error e => .error e
    | .ok reqOpts =>
      let fa := popCatchAll st.frees
      .ok ⟨ds.map (fun d => d.initVal), st.options, fa.1, fa.2,
        st.command.map (fun e => ⟨e.1, e.2, table⟩),
        st.helpFlags, st.requiredsFC ++ reqOpts⟩

/-- Mirrors `Opt::width` (lines 1801-1808). -/
def OptB.width (o : OptB) : Nat :=
  let short := match o.short with | some _ => 2 | none => 0
  let long := match o.long with | some s => s.length + 2 | none => 0
  let sep := if short = 0 ∨ long = 0 then 0 else 2
  let meta := match o.meta with | some s => s.length + 1 | none => 0
  2 + short + long + sep + meta + 2

/-- Mirrors `FreeOpt::width` (lines 1778-1780). -/
def FreeSlot.width (s : FreeSlot) : Nat :=
  2 + s.fname.length + 2

/-- Mirrors `max_width` (lines 2294-2310): entries wider than 30 are
dropped before taking the maximum, and the result is clamped to
the interval from 8 to 30. -/
def max_width {α : Type} (items : List α) (f : α → Nat) : Nat :=
  let width := ((items.filterMap (fun it =>
    let w := f it
    if w > 30 then none else some w)).max?).getD 0
  min (max width 8) 30

/-- Name portion of an option's usage line: indentation, short and long
forms and the meta variable, as pushed by `Opt::usage` before any help
text handling. -/
def optPrefix (o : OptB) : Str :=
  [' ', ' '] ++
    (match o.short with | some c => ['-', c] | none => []) ++
    (if o.short.isSome ∧ o.long.isSome then [',', ' '] else []) ++
    (match o.long with | some l => '-' :: '-' :: l | none => []) ++
    (match o.meta with | some m => ' ' :: m | none => [])

/-- Mirrors `Opt::usage` (lines 1889-1932): the name portion, padding to
the help column or a wrap onto an indented next line, then help text and
the default display. -/
def OptB.usageLine (o : OptB) (col : Nat) : Str :=
  let res := optPrefix o
  let res :=
    if o.help.isSome ∨ o.dflt.isSome then
      if res.length < col then res ++ List.replicate (col - res.length) ' '
      else res ++ '\n' :: List.replicate col ' '
    else res
  let res := res ++ (match o.help with | some h => h | none => [])
  res ++ (match o.dflt with
          | some d => " (default: ".toList ++ d ++ [')']
          | none => [])

/-- Mirrors the free-slot line of `make_usage` (lines 2253-2271). -/
def freeUsageLine (s : FreeSlot) (col : Nat) : Str :=
  let line := [' ', ' '] ++ s.fname
  match s.help with
  | some h =>
    (if line.length < col then line ++ List.replicate (col - line.length) ' '
     else line ++ '\n' :: List.replicate col ' ') ++ h
  | none => line

/-- Mirrors `make_usage` (lines 2235-2292): optional introductory help,
a positional section and an optional section, all aligned to the shared
column, with the final newline popped. -/
def make_usage (help : Option Str) (frees : List FreeSlot)
    (opts : List OptB) : Str :=
  let res := match help with | some h => h ++ ['\n'] | none => []
  let width := max (max_width frees FreeSlot.width) (max_width opts OptB.width)
  let res :=
    if !frees.isEmpty then
      let res := if res ≠ [] then res ++ ['\n'] else res
      let res := res ++ "Positional arguments:\n".toList
      frees.foldl (fun acc s => acc ++ freeUsageLine s width ++ ['\n']) res
    else res
  let res :=
    if !opts.isEmpty then
      let res := if res ≠ [] then res ++ ['\n'] else res
      let res := res ++ "Optional arguments:\n".toList
      opts.foldl (fun acc o => acc ++ o.usageLine width ++ ['\n']) res
    else res
  res.dropLast

/-- Display strings carried inside errors, blanked: two errors related by
`stripDisp` differ at most in the reported option form. -/
def Err.stripDisp : Err → Err
  | .FailedParse _ m => .FailedParse [] m
  | .InsufficientArguments _ e f => .InsufficientArguments [] e f
  | .MissingArgument _ => .MissingArgument []
  | .UnexpectedArgument _ => .UnexpectedArgument []
  | .UnexpectedSingleArgument _ n => .UnexpectedSingleArgument [] n
  | e => e

/-- Results equal up to the option-display string embedded in errors. -/
def resEquiv {α : Type} : Except Err α → Except Err α → Prop
  | .ok a, .ok b => a = b
  | .error e, .error f => e.stripDisp = f.stripDisp
  | _, _ => False

/-!
Concrete instances used to exercise the theorems: registries and field
descriptors for small option records mirroring the shapes of the crate's
integration tests.
-/

/-- Conversion function of a field whose `FromStr` accepts every string
(such as `String` itself). -/
def okParse : Str → Except Str Str := Except.ok

/-- Descriptor template: a plain boolean field with no attributes. -/
def baseDesc : FieldDesc :=
  ⟨[], .bool, .vBool false, okParse, false, none, false, none, false,
    false, false, false, false, false, false, false, false, none, none, none⟩

/-- Registry with a single long option `opt` bound to a unit-tuple field
(`()`), arity 0: the binding takes no argument. -/
def regTuple0 : Registry :=
  ⟨[.vVal (.tuple [])],
    [⟨0, "opt".toList, .SetField ⟨okParse, some 0⟩, some "opt".toList,
      none, true, false, none, none, none⟩],
    [], none, none, [], []⟩

/-- Registry with a single long option `won` bound to a one-tuple field
(`(String,)`), arity 1: the binding requires exactly one argument. -/
def regTuple1 : Registry :=
  ⟨[.vVal (.tuple [])],
    [⟨0, "won".toList, .SetField ⟨okParse, some 1⟩, some "won".toList,
      none, true, false, none, none, none⟩],
    [], none, none, [], []⟩

/-- Registry with one required option `req` and one help flag `help`,
the shape produced by `build` for a record with those two fields. -/
def regHelpReq : Registry :=
  ⟨[.vBool false, .vOpt none],
    [⟨0, "help".toList, .Switch, some "help".toList, some 'h', false,
      false, none, none, none⟩,
     ⟨1, "req".toList, .SetOption ⟨okParse, none⟩, some "req".toList,
      some 'r', false, true, none, none, none⟩],
    [], none, none, [0], [(1, .MissingRequired "--req".toList)]⟩

/-- Registry with one option `file` having both a short and a long form. -/
def regFile : Registry :=
  ⟨[.vOpt none],
    [⟨0, "file".toList, .SetOption ⟨okParse, none⟩, some "file".toList,
      some 'f', false, false, none, none, none⟩],
    [], none, none, [], []⟩

/-- Registry with three fixed free slots and a trailing accumulating
free slot, the shape produced by `build` for three scalar `free` fields
followed by a `Vec` `free` field. -/
def regFrees : Registry :=
  ⟨[.vVal (.scalar []), .vVal (.scalar []), .vVal (.scalar []), .vList []],
    [],
    [⟨0, "a".toList, .SetField, okParse, false, none⟩,
     ⟨1, "b".toList, .SetField, okParse, false, none⟩,
     ⟨2, "c".toList, .SetField, okParse, false, none⟩],
    some ⟨3, "rest".toList, .Push, okParse, false, none⟩,
    none, [], []⟩

/-- Delegate table with one subcommand `install` whose payload record
has a single option `dir`. -/
def regInstall : Registry :=
  ⟨[.vOpt none],
    [⟨0, "dir".toList, .SetOption ⟨okParse, none⟩, some "dir".toList,
      some 'd', false, false, none, none, none⟩],
    [], none, none, [], []⟩

/-- Subcommand table used by the command-dispatch instances. -/
def tableInstall : List (Str × SubParse) :=
  [("install".toList, fun p => parseRegistry regInstall p (p.size + 1))]

/-- Registry with a command slot over `tableInstall` and no free slots. -/
def regCmd : Registry :=
  ⟨[.vBool false, .vCmdNone],
    [⟨0, "verbose".toList, .Switch, some "verbose".toList, some 'v',
      false, false, none, none, none⟩],
    [], none, some ⟨1, false, tableInstall⟩, [], []⟩

/-- Descriptor of a required option field `req` of type `Option<String>`. -/
def descReq : FieldDesc :=
  { baseDesc with
    fname := "req".toList, shape := .option (some none),
    initVal := .vOpt none, required := true }

/-- Descriptor of a plain boolean field named `help`. -/
def descHelp : FieldDesc :=
  { baseDesc with fname := "help".toList }

/-- Descriptor of an accumulating `free` field of type `Vec<String>`. -/
def descVecFree : FieldDesc :=
  { baseDesc with
    fname := "rest".toList, shape := .vec (some none),
    initVal := .vList [], isFree := true }

/-- Descriptor of a scalar `free` field of type `String`. -/
def descScalarFree : FieldDesc :=
  { baseDesc with
    fname := "a".toList, shape := .other none,
    initVal := .vVal (.scalar []), isFree := true }

/-- Option entries exercising the usage column computation: a short
entry of width 10 and an over-wide entry of width 32, both with help
text. -/
def optNarrow : OptB :=
  ⟨0, "name".toList, .SetOption ⟨okParse, none⟩, some "name".toList,
    none, true, false, some ['h'], none, none⟩

/-- Over-wide usage entry: its width 32 exceeds the 30-column cap. -/
def optWide : OptB :=
  ⟨1, "w".toList, .SetOption ⟨okParse, none⟩,
    some "abcdefghijklmnopqrstuvwxyz".toList, none, true, false,
    some ['H'], none, none⟩

/-!
Branch lemmas for the tokenizer: one equation per arm of
`Parser::next_opt` and `Parser::next_arg`, under the side conditions that
select the arm.
-/

theorem next_opt_cluster (p : Parser) (c : Char) (cs : List Char)
    (h : p.cur = some (c :: cs)) :
    p.next_opt = (some (Opt.Short c), { p with cur := some cs }) := by
  unfold Parser.next_opt
  rw [h]

theorem next_opt_term (args : List Str) (cur0 : Option (List Char))
    (style : ParsingStyle) (hc : cur0 = none ∨ cur0 = some []) :
    Parser.next_opt ⟨args, cur0, style, true⟩ =
      match args with
      | [] => (none, ⟨[], none, style, true⟩)
      | a :: rest => (some (Opt.Free a), ⟨rest, none, style, true⟩) := by
  rcases hc with rfl | rfl <;> cases args <;> rfl

theorem next_opt_nil (cur0 : Option (List Char)) (style : ParsingStyle)
    (hc : cur0 = none ∨ cur0 = some []) :
    Parser.next_opt ⟨[], cur0, style, false⟩ =
      (none, ⟨[], none, style, false⟩) := by
  rcases hc with rfl | rfl <;> rfl

theorem next_opt_dash (rest : List Str) (cur0 : Option (List Char))
    (style : ParsingStyle) (hc : cur0 = none ∨ cur0 = some []) :
    Parser.next_opt ⟨['-'] :: rest, cur0, style, false⟩ =
      (some (Opt.Free ['-']),
        ⟨rest, none, style, style = ParsingStyle.StopAtFirstFree⟩) := by
  rcases hc with rfl | rfl <;> cases style <;> rfl

theorem next_opt_ddash (rest : List Str) (cur0 : Option (List Char))
    (style : ParsingStyle) (hc : cur0 = none ∨ cur0 = some []) :
    Parser.next_opt ⟨['-', '-'] :: rest, cur0, style, false⟩ =
      match rest with
      | [] => (none, ⟨[], none, style, true⟩)
      | b :: rest2 => (some (Opt.Free b), ⟨rest2, none, style, true⟩) := by
  rcases hc with rfl | rfl <;> cases rest <;> rfl

theorem next_opt_long (l : Str) (rest : List Str)
    (cur0 : Option (List Char)) (style : ParsingStyle)
    (hc : cur0 = none ∨ cur0 = some []) (hl : l ≠ [])
    (he : splitAtEq l = none) :
    Parser.next_opt ⟨('-' :: '-' :: l) :: rest, cur0, style, false⟩ =
      (some (Opt.Long l), ⟨rest, none, style, false⟩) := by
  obtain ⟨c, cs, rfl⟩ : ∃ c cs, l = c :: cs := by
    cases l with
    | nil => exact absurd rfl hl
    | cons c cs => exact ⟨c, cs, rfl⟩
  rcases hc with rfl | rfl <;>
    simp [Parser.next_opt, List.isPrefixOf, he]

theorem next_opt_longarg (l n v : Str) (rest : List Str)
    (cur0 : Option (List Char)) (style : ParsingStyle)
    (hc : cur0 = none ∨ cur0 = some []) (hl : l ≠ [])
    (he : splitAtEq l = some (n, v)) :
    Parser.next_opt ⟨('-' :: '-' :: l) :: rest, cur0, style, false⟩ =
      (some (Opt.LongWithArg n v), ⟨rest, none, style, false⟩) := by
  obtain ⟨c, cs, rfl⟩ : ∃ c cs, l = c :: cs := by
    cases l with
    | nil => exact absurd rfl hl
    | cons c cs => exact ⟨c, cs, rfl⟩
  rcases hc with rfl | rfl <;>
    simp [Parser.next_opt, List.isPrefixOf, he]

theorem next_opt_short (c : Char) (cs : List Char) (rest : List Str)
    (cur0 : Option (List Char)) (style : ParsingStyle)
    (hc : cur0 = none ∨ cur0 = some []) (hd : c ≠ '-') :
    Parser.next_opt ⟨('-' :: c :: cs) :: rest, cur0, style, false⟩ =
      (some (Opt.Short c), ⟨rest, some cs, style, false⟩) := by
  have hd2 : ¬ ('-' = c) := fun h => hd h.symm
  rcases hc with rfl | rfl <;>
    simp [Parser.next_opt, List.isPrefixOf, hd, hd2]

theorem next_opt_free (a : Str) (rest : List Str)
    (cur0 : Option (List Char)) (style : ParsingStyle)
    (hc : cur0 = none ∨ cur0 = some []) (ha : a.head? ≠ some '-') :
    Parser.next_opt ⟨a :: rest, cur0, style, false⟩ =
      (some (Opt.Free a),
        ⟨rest, none, style, style = ParsingStyle.StopAtFirstFree⟩) := by
  have hne : ∀ l : Str, a ≠ '-' :: l := by
    intro l h
    rw [h] at ha
    exact ha rfl
  have hp : List.isPrefixOf ['-'] a = false := by
    cases a with
    | nil => rfl
    | cons x xs =>
      simp only [List.head?] at ha
      simp [List.isPrefixOf]
      intro h
      exact ha (by rw [h])
  have hp2 : List.isPrefixOf ['-', '-'] a = false := by
    cases a with
    | nil => rfl
    | cons x xs =>
      simp only [List.head?] at ha
      simp [List.isPrefixOf]
      intro h
      exact absurd (by rw [h]) ha
  rcases hc with rfl | rfl <;> cases style <;>
    simp [Parser.next_opt, hne, hp, hp2]

theorem next_arg_cluster (p : Parser) (c : Char) (cs : List Char)
    (h : p.cur = some (c :: cs)) :
    p.next_arg = (some (c :: cs), { p with cur := none }) := by
  unfold Parser.next_arg
  rw [h]
  simp

theorem next_arg_raw (p : Parser) (hc : p.cur = none ∨ p.cur = some []) :
    p.next_arg =
      match p.args with
      | [] => (none, { p with cur := none })
      | a :: rest => (some a, { p with cur := none, args := rest }) := by
  rcases hc with h | h <;> unfold Parser.next_arg <;> rw [h] <;>
    cases harg : p.args <;> simp

/-- Lowercase ASCII characters are fixed by `Char.toLower`. -/
theorem toLower_of_isLower {c : Char} (h : c.isLower = true) :
    c.toLower = c := by
  simp only [Char.isLower, Bool.and_eq_true, decide_eq_true_eq] at h
  obtain ⟨h1, h2⟩ := h
  have h97 : 97 ≤ c.val.toNat :=
    UInt32.le_toNat_of_le (by norm_num [UInt32.size]) h1
  rw [Char.toLower, if_neg]
  rintro ⟨ha, hb⟩
  simp only [Char.toNat] at ha hb
  omega

theorem make_command_name_go (cs : Str) : ∀ res : Str, res ≠ [] →
    List.foldl
      (fun res ch => if ch.isLower then res ++ [ch]
        else (if res ≠ [] then res ++ ['-'] else res) ++ [ch.toLower])
      res cs
    = res ++ cs.flatMap
        (fun ch => if ch.isLower then [ch] else ['-', ch.toLower]) := by
  induction cs with
  | nil => intro res _; simp
  | cons c cs ih =>
    intro res hres
    rw [List.foldl_cons]
    by_cases h : c.isLower = true
    · rw [if_pos h, ih (res ++ [c]) (by simp), List.flatMap_cons, if_pos h]
      simp
    · rw [if_neg h, if_pos hres, ih _ (by simp), List.flatMap_cons, if_neg h]
      simp

/-- C8: for every enum variant identifier, the derived command name is
the kebab-case form of the CamelCase identifier: the whole name is
lowercased and every character that is not already lowercase — each
point where the name transitions into lowercase — is preceded by a
hyphen, except at the very start; in particular `FooBar` becomes
`foo-bar`.  The structural description `kebabSpec` follows the
specification's words; the theorem shows the source's accumulator-based
`make_command_name` computes exactly it on every input. -/
theorem c8_command_name_kebab :
    (∀ name : Str, make_command_name name = kebabSpec name) ∧
    make_command_name "FooBar".toList = "foo-bar".toList := by
  have main : ∀ name : Str, make_command_name name = kebabSpec name := by
    intro name
    cases name with
    | nil => rfl
    | cons c cs =>
      have hf : make_command_name (c :: cs) =
          List.foldl
            (fun res ch => if ch.isLower then res ++ [ch]
              else (if res ≠ [] then res ++ ['-'] else res) ++ [ch.toLower])
            [c.toLower] cs := by
        unfold make_command_name
        rw [List.foldl_cons]
        congr 1
        by_cases h : c.isLower = true
        · simp [h, toLower_of_isLower h]
        · simp [h]
      rw [hf, make_command_name_go cs [c.toLower] (by simp)]
      rfl
  exact ⟨main, by rw [main]; decide⟩

/-- C1: tokenizer termination invariant.  Part 1: from any state whose
terminated flag is set (and whose cluster cursor is spent, as in every
reachable terminated state), every token the tokenizer ever returns is
`Free`.  Part 2: `next_opt` preserves the terminated flag and keeps the
cluster cursor spent whenever the flag is set.  Part 3: an argument
exactly `--` is consumed without being emitted: it sets the flag and the
following argument, if any, is emitted as `Free`.  Parts 4 and 5: under
`StopAtFirstFree`, the first free argument or a bare `-` sets the flag. -/
theorem c1_terminated_all_free :
    (∀ (p : Parser) (fuel : Nat), p.terminated = true →
      (p.cur = none ∨ p.cur = some []) →
      ∀ t ∈ p.tokens fuel, t.isFree = true) ∧
    (∀ (p q : Parser) (t : Option Opt), p.next_opt = (t, q) →
      (p.terminated = true → (p.cur = none ∨ p.cur = some [])) →
      (p.terminated = true → q.terminated = true) ∧
      (q.terminated = true → (q.cur = none ∨ q.cur = some []))) ∧
    (∀ (rest : List Str) (cur0 : Option (List Char)) (style : ParsingStyle),
      (cur0 = none ∨ cur0 = some []) →
      Parser.next_opt ⟨['-', '-'] :: rest, cur0, style, false⟩ =
        match rest with
        | [] => (none, ⟨[], none, style, true⟩)
        | b :: rest2 => (some (Opt.Free b), ⟨rest2, none, style, true⟩)) ∧
    (∀ (a : Str) (rest : List Str) (cur0 : Option (List Char)),
      (cur0 = none ∨ cur0 = some []) → a.head? ≠ some '-' →
      Parser.next_opt ⟨a :: rest, cur0, ParsingStyle.StopAtFirstFree, false⟩ =
        (some (Opt.Free a), ⟨rest, none, ParsingStyle.StopAtFirstFree, true⟩)) ∧
    (∀ (rest : List Str) (cur0 : Option (List Char)),
      (cur0 = none ∨ cur0 = some []) →
      Parser.next_opt ⟨['-'] :: rest, cur0, ParsingStyle.StopAtFirstFree, false⟩ =
        (some (Opt.Free ['-']),
          ⟨rest, none, ParsingStyle.StopAtFirstFree, true⟩)) := by
  refine ⟨?_, ?_, ?_, ?_, ?_⟩
  · intro p fuel
    induction fuel generalizing p with
    | zero => intro _ _ t ht; simp [Parser.tokens] at ht
    | succ n ih =>
      obtain ⟨args, cur, style, term⟩ := p
      intro hterm hcur t ht
      cases term with
      | false => simp at hterm
      | true =>
        rw [Parser.tokens, next_opt_term args cur style hcur] at ht
        cases args with
        | nil => simp at ht
        | cons a rest =>
          have ht2 : t = Opt.Free a ∨
              t ∈ Parser.tokens ⟨rest, none, style, true⟩ n :=
            List.mem_cons.mp ht
          rcases ht2 with rfl | hmem
          · rfl
          · exact ih ⟨rest, none, style, true⟩ rfl (Or.inl rfl) t hmem
  · intro p q t h hInv
    obtain ⟨args, cur, style, term⟩ := p
    cases term with
    | true =>
      rw [next_opt_term args cur style (hInv rfl)] at h
      cases args with
      | nil =>
        have hq : q = ⟨[], none, style, true⟩ := (congrArg Prod.snd h).symm
        subst hq
        exact ⟨fun _ => rfl, fun _ => Or.inl rfl⟩
      | cons a rest =>
        have hq : q = ⟨rest, none, style, true⟩ := (congrArg Prod.snd h).symm
        subst hq
        exact ⟨fun _ => rfl, fun _ => Or.inl rfl⟩
    | false =>
      refine ⟨fun ht => by simp at ht, ?_⟩
      have step : ∀ cur1 : Option (List Char),
          (cur1 = none ∨ cur1 = some []) →
          Parser.next_opt ⟨args, cur1, style, false⟩ = (t, q) →
          (q.terminated = true → (q.cur = none ∨ q.cur = some [])) := by
        intro cur1 hc1 h
        cases args with
        | nil =>
          rw [next_opt_nil cur1 style hc1] at h
          have hq : q = ⟨[], none, style, false⟩ := (congrArg Prod.snd h).symm
          subst hq
          intro hqt
          simp at hqt
        | cons a rest =>
          cases a with
          | nil =>
            rw [next_opt_free [] rest cur1 style hc1 (by simp)] at h
            have hq := (congrArg Prod.snd h).symm
            subst hq
            exact fun _ => Or.inl rfl
          | cons x xs =>
            by_cases hx : x = '-'
            · subst hx
              cases xs with
              | nil =>
                rw [next_opt_dash rest cur1 style hc1] at h
                have hq := (congrArg Prod.snd h).symm
                subst hq
                exact fun _ => Or.inl rfl
              | cons y ys =>
                by_cases hy : y = '-'
                · subst hy
                  cases ys with
                  | nil =>
                    rw [next_opt_ddash rest cur1 style hc1] at h
                    cases rest with
                    | nil =>
                      have hq := (congrArg Prod.snd h).symm
                      subst hq
                      exact fun _ => Or.inl rfl
                    | cons b rest2 =>
                      have hq := (congrArg Prod.snd h).symm
                      subst hq
                      exact fun _ => Or.inl rfl
                  | cons z zs =>
                    cases hsp : splitAtEq (z :: zs) with
                    | some nv =>
                      rw [next_opt_longarg (z :: zs) nv.1 nv.2 rest cur1 style
                        hc1 (by simp) hsp] at h
                      have hq := (congrArg Prod.snd h).symm
                      subst hq
                      exact fun _ => Or.inl rfl
                    | none =>
                      rw [next_opt_long (z :: zs) rest cur1 style hc1
                        (by simp) hsp] at h
                      have hq := (congrArg Prod.snd h).symm
                      subst hq
                      exact fun _ => Or.inl rfl
                · rw [next_opt_short y ys rest cur1 style hc1 hy] at h
                  have hq := (congrArg Prod.snd h).symm
                  subst hq
                  intro hqt
                  simp at hqt
            · rw [next_opt_free (x :: xs) rest cur1 style hc1
                (by simp [hx])] at h
              have hq := (congrArg Prod.snd h).symm
              subst hq
              exact fun _ => Or.inl rfl
      cases cur with
      | none => exact step none (Or.inl rfl) h
      | some cl =>
        cases cl with
        | nil => exact step (some []) (Or.inr rfl) h
        | cons c cs =>
          rw [next_opt_cluster ⟨args, some (c :: cs), style, false⟩ c cs
            rfl] at h
          have hq : q = ⟨args, some cs, style, false⟩ :=
            (congrArg Prod.snd h).symm
          subst hq
          intro hqt
          simp at hqt
  · exact next_opt_ddash
  · intro a rest cur0 hc ha
    rw [next_opt_free a rest cur0 ParsingStyle.StopAtFirstFree hc ha]
    rfl
  · intro rest cur0 hc
    rw [next_opt_dash rest cur0 ParsingStyle.StopAtFirstFree hc]
    rfl

/-- Witness for C1 at concrete inputs: after `--` the tokenizer is
terminated and the following `-z` is emitted as a `Free` token. -/
theorem c1_witness :
    Parser.next_opt ⟨[['-', '-'], ['-', 'z']], none,
        ParsingStyle.AllOptions, false⟩ =
      (some (Opt.Free ['-', 'z']),
        ⟨[], none, ParsingStyle.AllOptions, true⟩) ∧
    (Opt.Free ['-', 'z']).isFree = true := by
  constructor
  · exact c1_terminated_all_free.2.2.1 [['-', 'z']] none
      ParsingStyle.AllOptions (Or.inl rfl)
  · exact c1_terminated_all_free.1
      ⟨[['-', 'z']], none, ParsingStyle.AllOptions, true⟩ 2 rfl (Or.inl rfl)
      (Opt.Free ['-', 'z']) (by decide)

/-- C2: short-option clustering.  Part 1: an argument `-abc…` (second
character not a dash) yields `Short` of its first option character and
stashes the remainder as the cluster cursor.  Part 2: a non-empty
cluster cursor yields the next `Short` and keeps the rest.  Part 3:
`next_arg` on a non-empty cluster remainder consumes and returns the
entire remainder, clearing the cursor (so no further `Short` tokens come
from it).  Part 4: with the cluster spent, `next_arg` consumes and
returns the next raw argument, or end-of-stream if none remain. -/
theorem c2_short_cluster :
    (∀ (c : Char) (cs : List Char) (rest : List Str) (style : ParsingStyle),
      c ≠ '-' →
      Parser.next_opt ⟨('-' :: c :: cs) :: rest, none, style, false⟩ =
        (some (Opt.Short c), ⟨rest, some cs, style, false⟩)) ∧
    (∀ (p : Parser) (d : Char) (ds : List Char), p.cur = some (d :: ds) →
      p.next_opt = (some (Opt.Short d), { p with cur := some ds })) ∧
    (∀ (p : Parser) (d : Char) (ds : List Char), p.cur = some (d :: ds) →
      p.next_arg = (some (d :: ds), { p with cur := none })) ∧
    (∀ p : Parser, (p.cur = none ∨ p.cur = some []) →
      p.next_arg =
        match p.args with
        | [] => (none, { p with cur := none })
        | a :: rest => (some a, { p with cur := none, args := rest })) :=
  ⟨fun c cs rest style h => next_opt_short c cs rest none style (Or.inl rfl) h,
   next_opt_cluster, next_arg_cluster, next_arg_raw⟩

/-- Witness for C2 on the argument `-abc`: `Short 'a'` then `Short 'b'`,
then `next_arg` returns the remainder `c`; and with an empty remainder,
`next_arg` returns the next raw argument. -/
theorem c2_witness :
    Parser.next_opt ⟨[['-', 'a', 'b', 'c']], none,
        ParsingStyle.AllOptions, false⟩ =
      (some (Opt.Short 'a'),
        ⟨[], some ['b', 'c'], ParsingStyle.AllOptions, false⟩) ∧
    Parser.next_opt ⟨[], some ['b', 'c'], ParsingStyle.AllOptions, false⟩ =
      (some (Opt.Short 'b'),
        ⟨[], some ['c'], ParsingStyle.AllOptions, false⟩) ∧
    Parser.next_arg ⟨[], some ['c'], ParsingStyle.AllOptions, false⟩ =
      (some ['c'], ⟨[], none, ParsingStyle.AllOptions, false⟩) ∧
    Parser.next_arg ⟨[['v', 'a', 'l']], some [],
        ParsingStyle.AllOptions, false⟩ =
      (some ['v', 'a', 'l'], ⟨[], none, ParsingStyle.AllOptions, false⟩) :=
  ⟨c2_short_cluster.1 'a' ['b', 'c'] [] ParsingStyle.AllOptions (by decide),
   c2_short_cluster.2.1 _ 'b' ['c'] rfl,
   c2_short_cluster.2.2.1 _ 'c' [] rfl,
   c2_short_cluster.2.2.2 _ (Or.inr rfl)⟩

/-!
Unfolding lemmas for the token loops.
-/

theorem parseLoop_none (reg : Registry) (r : Record) (fc : Nat)
    (used : List Nat) (p q : Parser) (fuel : Nat)
    (h : p.next_opt = (none, q)) :
    parseLoop reg r fc used p (fuel + 1) = finish reg r used := by
  rw [parseLoop, h]

theorem parseLoop_some (reg : Registry) (r : Record) (fc : Nat)
    (used : List Nat) (p q : Parser) (fuel : Nat) (tok : Opt)
    (h : p.next_opt = (some tok, q)) :
    parseLoop reg r fc used p (fuel + 1) =
      match parseStep reg r fc used tok q with
      | .done res => res
      | .cont r2 fc2 used2 q2 => parseLoop reg r2 fc2 used2 q2 fuel := by
  rw [parseLoop, h]

theorem parseLoopCore_none (reg : Registry) (r : Record) (fc : Nat)
    (used : List Nat) (p q : Parser) (fuel : Nat)
    (h : p.next_opt = (none, q)) :
    parseLoopCore reg r fc used p (fuel + 1) = finish reg r used := by
  rw [parseLoopCore, h]

theorem parseLoopCore_some (reg : Registry) (r : Record) (fc : Nat)
    (used : List Nat) (p q : Parser) (fuel : Nat) (tok : Opt)
    (h : p.next_opt = (some tok, q)) :
    parseLoopCore reg r fc used p (fuel + 1) =
      match parseStepCore reg r fc used tok q with
      | .done res => res
      | .cont r2 fc2 used2 q2 => parseLoopCore reg r2 fc2 used2 q2 fuel := by
  rw [parseLoopCore, h]

/-- C3 (amended): dispatch of a `--name=value` token on its first
matching binding.  A binding of tuple arity `n` — any fixed tuple arity,
including 0 and 1 — yields `UnexpectedSingleArgument(name, n)`; a
non-tuple value-taking binding converts and stores the attached value
directly, continuing the loop on the parser state left by the token
itself (no `next_arg` call); a non-tuple binding taking no argument
(`Switch` or `Count`) yields `UnexpectedArgument(name)`. -/
theorem c3_longwitharg_dispatch (reg : Registry) (r : Record) (fc : Nat)
    (used : List Nat) (p q : Parser) (fuel : Nat) (l v : Str) (o : OptB)
    (hnext : p.next_opt = (some (Opt.LongWithArg l v), q))
    (hfind : findLong reg.opts l = some o) :
    (∀ n, o.action.tuple_len = some n →
      parseLoop reg r fc used p (fuel + 1) =
        .error (.UnexpectedSingleArgument ('-' :: '-' :: l) n)) ∧
    (∀ m w, o.action.parseMethod = some m → m.tuple_len = none →
      m.parse_fn v = .ok w →
      parseLoop reg r fc used p (fuel + 1) =
        parseLoop reg (assignValue r o.field o.action (.scalar w)) fc
          (markUsed used o.required o.field) q fuel) ∧
    ((o.action = .Switch ∨ o.action = .Count) →
      parseLoop reg r fc used p (fuel + 1) =
        .error (.UnexpectedArgument ('-' :: '-' :: l))) := by
  rw [parseLoop_some reg r fc used p q fuel _ hnext]
  refine ⟨?_, ?_, ?_⟩
  · intro n htl
    simp [parseStep, hfind, htl, Opt.to_string]
  · intro m w hm htl hpf
    cases ha : o.action with
    | Count =>
      rw [ha] at hm
      simp [Action.parseMethod] at hm
    | Switch =>
      rw [ha] at hm
      simp [Action.parseMethod] at hm
    | Push m' =>
      rw [ha] at hm
      simp only [Action.parseMethod, Option.some.injEq] at hm
      subst hm
      simp [parseStep, hfind, ha, Action.tuple_len, htl, Action.takes_arg,
        ParseMethod.takes_arg, runOptArg, hpf, Opt.to_string]
    | SetField m' =>
      rw [ha] at hm
      simp only [Action.parseMethod, Option.some.injEq] at hm
      subst hm
      simp [parseStep, hfind, ha, Action.tuple_len, htl, Action.takes_arg,
        ParseMethod.takes_arg, runOptArg, hpf, Opt.to_string]
    | SetOption m' =>
      rw [ha] at hm
      simp only [Action.parseMethod, Option.some.injEq] at hm
      subst hm
      simp [parseStep, hfind, ha, Action.tuple_len, htl, Action.takes_arg,
        ParseMethod.takes_arg, runOptArg, hpf, Opt.to_string]
  · intro hsc
    rcases hsc with ha | ha <;>
      simp [parseStep, hfind, ha, Action.tuple_len, Action.takes_arg,
        Opt.to_string]

/-- Counterexample to C3 as stated: on the unit-tuple binding of
`regTuple0`, which requires zero arguments, `--opt=value` yields
`UnexpectedSingleArgument("--opt", 0)` rather than the claimed
`UnexpectedArgument`; and on the one-tuple binding of `regTuple1`,
which requires exactly one argument, `--won=value` yields
`UnexpectedSingleArgument("--won", 1)` rather than binding the value. -/
theorem c3_counterexample :
    parseArgs regTuple0 ["--opt=value".toList] ParsingStyle.AllOptions =
      .error (.UnexpectedSingleArgument "--opt".toList 0) ∧
    parseArgs regTuple1 ["--won=value".toList] ParsingStyle.AllOptions =
      .error (.UnexpectedSingleArgument "--won".toList 1) ∧
    Err.UnexpectedSingleArgument "--opt".toList 0 ≠
      Err.UnexpectedArgument "--opt".toList := by
  refine ⟨rfl, rfl, by decide⟩

/-- Witness for C3 (amended) at concrete inputs: the arity-0 and
arity-1 tuple branches and the scalar direct-binding branch. -/
theorem c3_witness :
    parseLoop regTuple0 regTuple0.init 0 []
        (Parser.new ["--opt=value".toList] ParsingStyle.AllOptions) 1 =
      .error (.UnexpectedSingleArgument "--opt".toList 0) ∧
    parseLoop regTuple1 regTuple1.init 0 []
        (Parser.new ["--won=value".toList] ParsingStyle.AllOptions) 1 =
      .error (.UnexpectedSingleArgument "--won".toList 1) ∧
    parseLoop regFile regFile.init 0 []
        (Parser.new ["--file=x".toList] ParsingStyle.AllOptions) 1 =
      parseLoop regFile
        (assignValue regFile.init 0
          (Action.SetOption ⟨okParse, none⟩) (.scalar "x".toList)) 0 []
        ⟨[], none, ParsingStyle.AllOptions, false⟩ 0 := by
  refine ⟨?_, ?_, ?_⟩
  · exact (c3_longwitharg_dispatch regTuple0 regTuple0.init 0 []
      _ ⟨[], none, ParsingStyle.AllOptions, false⟩ 0 "opt".toList
      "value".toList _ (by decide) rfl).1 0 rfl
  · exact (c3_longwitharg_dispatch regTuple1 regTuple1.init 0 []
      _ ⟨[], none, ParsingStyle.AllOptions, false⟩ 0 "won".toList
      "value".toList _ (by decide) rfl).1 1 rfl
  · exact (c3_longwitharg_dispatch regFile regFile.init 0 []
      _ ⟨[], none, ParsingStyle.AllOptions, false⟩ 0 "file".toList
      "x".toList _ (by decide) rfl).2.1 ⟨okParse, none⟩ "x".toList
      rfl rfl rfl

/-!
Record field lemmas.
-/

theorem Record.get_set_self (r : Record) (i : Nat) (v : FieldVal)
    (h : i < r.length) : Record.get (r.set i v) i = v := by
  unfold Record.get
  rw [List.getD_eq_getElem?_getD, List.getElem?_set_eq_of_lt v h]
  rfl

theorem Record.get_set_ne (r : Record) (i j : Nat) (v : FieldVal)
    (h : i ≠ j) : Record.get (r.set i v) j = r.get j := by
  unfold Record.get
  rw [List.getD_eq_getElem?_getD, List.getElem?_set_ne h,
    ← List.getD_eq_getElem?_getD]

theorem Record.length_set (r : Record) (i : Nat) (v : FieldVal) :
    (r.set i v).length = r.length :=
  List.length_set ..

/-- C4: help flags waive the required-set check.  Part 1: for every
registry whose options include a help-flag `Switch` binding, parsing an
argument list supplying only that flag's long form succeeds, with no
`MissingRequired` error, whatever the required set holds.  Part 2: for
every registry whose help-flag fields are all false after defaults,
parsing an empty argument list surfaces the prepared error of the first
entry of the required set (`MissingRequired`, `MissingRequiredCommand`
or `MissingRequiredFree`, as recorded at construction).  Part 3: the
post-loop `finish` runs the required-set verification if and only if no
help-flag field is true: a true help flag short-circuits to success, and
otherwise the first unmet requirement's error is returned. -/
theorem c4_help_waives_required :
    (∀ (reg : Registry) (style : ParsingStyle) (fuel : Nat) (hname : Str)
      (b : OptB),
      findLong reg.opts hname = some b → b.action = .Switch →
      b.field ∈ reg.helpFlags → b.field < reg.init.length →
      hname ≠ [] → splitAtEq hname = none →
      parseRegistry reg (Parser.new ['-' :: '-' :: hname] style)
          (fuel + 2) =
        .ok (reg.init.set b.field (.vBool true))) ∧
    (∀ (reg : Registry) (style : ParsingStyle) (fuel : Nat) (f0 : Nat)
      (e0 : Err) (tl : List (Nat × Err)),
      reg.requireds = (f0, e0) :: tl →
      (∀ f ∈ reg.helpFlags, (reg.init.get f).isTrue = false) →
      parseRegistry reg (Parser.new [] style) fuel = .error e0) ∧
    (∀ (reg : Registry) (r : Record) (used : List Nat),
      ((∃ f ∈ reg.helpFlags, (r.get f).isTrue = true) →
        finish reg r used = .ok r) ∧
      (reg.helpFlags.all (fun f => !(r.get f).isTrue) = true →
        finish reg r used =
          match reg.requireds.find? (fun e => !used.contains e.1) with
          | some e => .error e.2
          | none => .ok r)) := by
  refine ⟨?_, ?_, ?_⟩
  · intro reg style fuel hname b hfind hact hmem hlen hne hsplit
    unfold parseRegistry
    simp only [Parser.new]
    have h22 : fuel + 2 = fuel + 1 + 1 := rfl
    rw [h22, parseLoop_some reg reg.init 0 [] _ ⟨[], none, style, false⟩
      (fuel + 1) (Opt.Long hname)
      (next_opt_long hname [] none style (Or.inl rfl) hne hsplit)]
    have hstep : parseStep reg reg.init 0 [] (Opt.Long hname)
        ⟨[], none, style, false⟩ =
        .cont (reg.init.set b.field (.vBool true)) 0
          (markUsed [] b.required b.field) ⟨[], none, style, false⟩ := by
      simp [parseStep, hfind, runOpt, hact]
    rw [hstep]
    show parseLoop reg (reg.init.set b.field (.vBool true)) 0
      (markUsed [] b.required b.field) ⟨[], none, style, false⟩ (fuel + 1) =
      .ok (reg.init.set b.field (.vBool true))
    rw [parseLoop_none reg _ 0 _ _ ⟨[], none, style, false⟩ fuel
      (next_opt_nil none style (Or.inl rfl))]
    unfold finish
    rw [if_neg]
    intro hall
    have := List.all_eq_true.mp hall b.field hmem
    rw [Record.get_set_self reg.init b.field (.vBool true) hlen] at this
    simp [FieldVal.isTrue] at this
  · intro reg style fuel f0 e0 tl hreq hhelp
    have hfin : finish reg reg.init [] = .error e0 := by
      unfold finish
      rw [if_pos, hreq]
      · simp [List.find?]
      · exact List.all_eq_true.mpr (fun f hf => by simp [hhelp f hf])
    cases fuel with
    | zero => exact hfin
    | succ n =>
      unfold parseRegistry
      simp only [Parser.new]
      rw [parseLoop_none reg reg.init 0 [] _ ⟨[], none, style, false⟩ n
        (next_opt_nil none style (Or.inl rfl))]
      exact hfin
  · intro reg r used
    constructor
    · rintro ⟨f, hf, htrue⟩
      unfold finish
      rw [if_neg]
      rw [Bool.not_eq_true, List.all_eq_false]
      exact ⟨f, hf, by simp [htrue]⟩
    · intro hall
      unfold finish
      rw [if_pos hall]

/-- Witness for C4 on the two-field record of `regHelpReq` (a help flag
and a required option): supplying only `--help` succeeds, and supplying
nothing fails with `MissingRequired`. -/
theorem c4_witness :
    parseRegistry regHelpReq
        (Parser.new ["--help".toList] ParsingStyle.AllOptions) 2 =
      .ok [.vBool true, .vOpt none] ∧
    parseRegistry regHelpReq (Parser.new [] ParsingStyle.AllOptions) 1 =
      .error (.MissingRequired "--req".toList) := by
  constructor
  · exact c4_help_waives_required.1 regHelpReq ParsingStyle.AllOptions 0
      "help".toList
      ⟨0, "help".toList, .Switch, some "help".toList, some 'h', false,
        false, none, none, none⟩
      rfl rfl (by decide) (by decide) (by decide) rfl
  · exact c4_help_waives_required.2.1 regHelpReq ParsingStyle.AllOptions 1
      1 (.MissingRequired "--req".toList) [] rfl
      (by intro f hf; fin_cases hf <;> rfl)

/-- C6: command dispatch.  For a registry with a command slot and no
free slots, a `Free` token is looked up by exact, case-sensitive
first-match against the command table (each variant's derived-or-explicit
kebab-case name).  On a match, the loop hands the live parser to the
matched variant payload type's parse function — which consumes all
remaining tokens — stores the returned result in the command field and
breaks straight to the post-loop checks; on no match, the loop returns
`UnrecognizedCommand` carrying the name. -/
theorem c6_command_dispatch (reg : Registry) (r : Record) (fc : Nat)
    (used : List Nat) (p q : Parser) (fuel : Nat) (fa : Str) (cs : CmdSlot)
    (hfrees : reg.frees = []) (hcatch : reg.catchAll = none)
    (hcmd : reg.command = some cs)
    (hnext : p.next_opt = (some (Opt.Free fa), q)) :
    (∀ cname sp, cs.table.find? (fun e => e.1 = fa) = some (cname, sp) →
      parseLoop reg r fc used p (fuel + 1) =
        match sp q with
        | .error e => .error e
        | .ok sr =>
          finish reg (r.set cs.field (.vCmd cname sr))
            (markUsed used cs.required cs.field)) ∧
    (cs.table.find? (fun e => e.1 = fa) = none →
      parseLoop reg r fc used p (fuel + 1) =
        .error (.UnrecognizedCommand fa)) := by
  rw [parseLoop_some reg r fc used p q fuel _ hnext]
  constructor
  · intro cname sp hfind
    simp only [parseStep, hfrees, hcatch, hcmd, parseCommandTable, hfind]
    cases hsp : sp q with
    | error e => simp
    | ok sr => simp
  · intro hfind
    simp [parseStep, hfrees, hcatch, hcmd, parseCommandTable, hfind]

/-- Witness for C6 on `regCmd` (one option, a command slot over the
table with the single command `install`): the free token `install`
delegates the remaining tokens to the payload parse and stores its
result, while an unmatched name yields `UnrecognizedCommand`. -/
theorem c6_witness :
    parseLoop regCmd regCmd.init 0 []
        (Parser.new ["install".toList, "--dir".toList, "/tmp".toList]
          ParsingStyle.AllOptions) 9 =
      .ok [.vBool false,
        .vCmd "install".toList [.vOpt (some (.scalar "/tmp".toList))]] ∧
    parseLoop regCmd regCmd.init 0 []
        (Parser.new ["bogus".toList] ParsingStyle.AllOptions) 9 =
      .error (.UnrecognizedCommand "bogus".toList) := by
  constructor
  · exact (c6_command_dispatch regCmd regCmd.init 0 [] _
      ⟨["--dir".toList, "/tmp".toList], none, ParsingStyle.AllOptions,
        false⟩ 8 "install".toList ⟨1, false, tableInstall⟩ rfl rfl rfl
      (by decide)).1 "install".toList _ rfl
  · exact (c6_command_dispatch regCmd regCmd.init 0 [] _
      ⟨[], none, ParsingStyle.AllOptions, false⟩ 8 "bogus".toList
      ⟨1, false, tableInstall⟩ rfl rfl rfl (by decide)).2 rfl

theorem le_max?_getD_of_mem {l : List Nat} {w : Nat} (h : w ∈ l) :
    w ≤ l.max?.getD 0 := by
  cases hm : l.max? with
  | none =>
    rw [List.max?_eq_none_iff] at hm
    subst hm
    simp at h
  | some m =>
    have h2 := (List.max?_le_iff (fun a b c => Nat.max_le) hm (x := m)).mp
      (le_refl m) w h
    simpa using h2

theorem max_width_ge {α : Type} (items : List α) (f : α → Nat) (o : α)
    (ho : o ∈ items) (hle : f o ≤ 30) : f o ≤ max_width items f := by
  unfold max_width
  have hmem : f o ∈ items.filterMap (fun it =>
      if f it > 30 then none else some (f it)) := by
    rw [List.mem_filterMap]
    exact ⟨o, ho, by simp [Nat.not_lt.mpr hle]⟩
  have h1 := le_max?_getD_of_mem hmem
  exact le_min (le_trans h1 (Nat.le_max_left _ _)) hle

theorem max_width_bounds {α : Type} (items : List α) (f : α → Nat) :
    8 ≤ max_width items f ∧ max_width items f ≤ 30 := by
  unfold max_width
  exact ⟨le_min (Nat.le_max_right _ _) (by norm_num), Nat.min_le_right _ _⟩

/-- C9 (amended): usage-column alignment as the code computes it.  The
shared help column of both sections is the width of the widest entry
*not exceeding 30 columns* — entries wider than 30 are excluded from the
maximum — clamped to the interval from 8 to 30 (parts 1 and 2: the
column lies in that interval and dominates every entry of width at most
30).  Part 3: an entry's width is the length of its rendered name
portion plus two trailing spaces.  Part 4: help text starts exactly at
the column — padded on the same line when the name portion is shorter
than the column, and wrapped onto the next line indented to the column
start when the name portion reaches it. -/
theorem c9_usage_column (frees : List FreeSlot) (opts : List OptB) :
    (8 ≤ max (max_width frees FreeSlot.width) (max_width opts OptB.width) ∧
      max (max_width frees FreeSlot.width) (max_width opts OptB.width) ≤ 30) ∧
    (∀ o ∈ opts, o.width ≤ 30 →
      o.width ≤
        max (max_width frees FreeSlot.width) (max_width opts OptB.width)) ∧
    (∀ o : OptB, o.width = (optPrefix o).length + 2) ∧
    (∀ (o : OptB) (h : Str) (col : Nat), o.help = some h → o.dflt = none →
      ((optPrefix o).length < col →
        o.usageLine col =
          optPrefix o ++ List.replicate (col - (optPrefix o).length) ' ' ++ h) ∧
      (col ≤ (optPrefix o).length →
        o.usageLine col =
          optPrefix o ++ '\n' :: (List.replicate col ' ' ++ h))) := by
  refine ⟨?_, ?_, ?_, ?_⟩
  · constructor
    · exact le_trans (max_width_bounds frees FreeSlot.width).1
        (Nat.le_max_left _ _)
    · exact max_le (max_width_bounds frees FreeSlot.width).2
        (max_width_bounds opts OptB.width).2
  · intro o ho hle
    exact le_trans (max_width_ge opts OptB.width o ho hle)
      (Nat.le_max_right _ _)
  · intro o
    unfold OptB.width optPrefix
    cases o.short <;> cases o.long <;> cases o.meta <;>
      simp [List.length_append] <;> omega
  · intro o h col hh hd
    constructor
    · intro hlt
      unfold OptB.usageLine
      rw [hh, hd]
      simp only [Option.isSome_some, true_or, if_pos, if_pos hlt]
      simp [List.append_assoc]
    · intro hge
      unfold OptB.usageLine
      rw [hh, hd]
      simp only [Option.isSome_some, true_or, if_pos,
        if_neg (Nat.not_lt.mpr hge)]
      simp [List.append_assoc]

/-- Counterexample to C9 as stated: with entries of widths 10 and 32,
the claimed column — the widest entry clamped to the interval from 8 to
30, that is 30 — differs from the code's column, which excludes the
over-wide entry before maximizing and is 10; the rendered usage aligns
the first entry's help text at column 10, not 30. -/
theorem c9_counterexample :
    optNarrow.width = 10 ∧ optWide.width = 32 ∧
    max (max_width ([] : List FreeSlot) FreeSlot.width)
      (max_width [optNarrow, optWide] OptB.width) = 10 ∧
    min (max (max optNarrow.width optWide.width) 8) 30 = 30 ∧
    make_usage none [] [optNarrow, optWide] =
      ("Optional arguments:\n  --name  h\n  --abcdefghijklmnopqrstuvwxyz\n          H").toList ∧
    optNarrow.usageLine 10 ≠ optNarrow.usageLine 30 := by
  refine ⟨rfl, rfl, by decide, by decide, by decide, by decide⟩

/-- Witness for C9 (amended) at the concrete registry entries: the
column is 10, the narrow entry is padded to it, the wide entry wraps to
an indented next line. -/
theorem c9_witness :
    optNarrow.width ≤
      max (max_width ([] : List FreeSlot) FreeSlot.width)
        (max_width [optNarrow, optWide] OptB.width) ∧
    optNarrow.usageLine 10 =
      optPrefix optNarrow ++ List.replicate 2 ' ' ++ ['h'] ∧
    optWide.usageLine 10 =
      optPrefix optWide ++ '\n' :: (List.replicate 10 ' ' ++ ['H']) := by
  refine ⟨?_, ?_, ?_⟩
  · exact (c9_usage_column [] [optNarrow, optWide]).2.1 optNarrow
      (by simp) (by decide)
  · exact ((c9_usage_column [] [optNarrow, optWide]).2.2.2 optNarrow ['h']
      10 rfl rfl).1 (by decide)
  · exact ((c9_usage_column [] [optNarrow, optWide]).2.2.2 optWide ['H']
      10 rfl rfl).2 (by decide)

/-!
Display-independence of the action handlers: the matched token enters
the handler only through its display string `Opt::to_string`, which is
embedded in `MissingArgument`, `InsufficientArguments` and `FailedParse`
errors and nowhere else.
-/

theorem resEquiv_refl {α : Type} (x : Except Err α) : resEquiv x x := by
  cases x with
  | error e => simp [resEquiv]
  | ok a => simp [resEquiv]

theorem next_opt_cur_empty (args : List Str) (style : ParsingStyle)
    (term : Bool) :
    Parser.next_opt ⟨args, some [], style, term⟩ =
      Parser.next_opt ⟨args, none, style, term⟩ := rfl

theorem next_arg_cur_empty (args : List Str) (style : ParsingStyle)
    (term : Bool) :
    Parser.next_arg ⟨args, some [], style, term⟩ =
      Parser.next_arg ⟨args, none, style, term⟩ := by
  simp [Parser.next_arg]

theorem parseLoop_cur_empty (reg : Registry) (r : Record) (fc : Nat)
    (used : List Nat) (args : List Str) (style : ParsingStyle)
    (term : Bool) (fuel : Nat) :
    parseLoop reg r fc used ⟨args, some [], style, term⟩ fuel =
      parseLoop reg r fc used ⟨args, none, style, term⟩ fuel := by
  cases fuel with
  | zero => rfl
  | succ n => rw [parseLoop, parseLoop, next_opt_cur_empty]

theorem collectArgs_disp (pf : Str → Except Str Str) (d1 d2 : Str)
    (n : Nat) : ∀ (k found : Nat) (p : Parser),
    resEquiv (collectArgs pf d1 n found k p)
      (collectArgs pf d2 n found k p) := by
  intro k
  induction k with
  | zero => intro found p; exact resEquiv_refl _
  | succ m ih =>
    intro found p
    simp only [collectArgs]
    rcases hna : p.next_arg with ⟨oa, q⟩
    cases oa with
    | none => exact rfl
    | some a =>
      show resEquiv
        (match pf a with
         | .error e => .error (.FailedParse d1 e)
         | .ok v =>
           match collectArgs pf d1 n (found + 1) m q with
           | .error e => .error e
           | .ok (vs, q2) => .ok (v :: vs, q2))
        (match pf a with
         | .error e => .error (.FailedParse d2 e)
         | .ok v =>
           match collectArgs pf d2 n (found + 1) m q with
           | .error e => .error e
           | .ok (vs, q2) => .ok (v :: vs, q2))
      rcases hpf : pf a with e | v
      · exact rfl
      · have hrec := ih (found + 1) q
        rcases h1 : collectArgs pf d1 n (found + 1) m q with e1 | ⟨vs1, q1⟩ <;>
          rcases h2 : collectArgs pf d2 n (found + 1) m q with e2 | ⟨vs2, q2⟩ <;>
          rw [h1, h2] at hrec
        · exact hrec
        · exact False.elim hrec
        · exact False.elim hrec
        · have heq : (vs1, q1) = (vs2, q2) := hrec
          injection heq with hv hq
          subst hv
          subst hq
          exact rfl

theorem collectArgs_rel (pf : Str → Except Str Str) (d1 d2 : Str)
    (n : Nat) (post : List Str) (style : ParsingStyle) :
    ∀ (k found : Nat),
    (∃ e1 e2, collectArgs pf d1 n found k ⟨post, some [], style, false⟩ =
        .error e1 ∧
      collectArgs pf d2 n found k ⟨post, none, style, false⟩ = .error e2 ∧
      e1.stripDisp = e2.stripDisp) ∨
    (∃ vs, collectArgs pf d1 n found k ⟨post, some [], style, false⟩ =
        .ok (vs, ⟨post, some [], style, false⟩) ∧
      collectArgs pf d2 n found k ⟨post, none, style, false⟩ =
        .ok (vs, ⟨post, none, style, false⟩)) ∨
    (∃ vs q, collectArgs pf d1 n found k ⟨post, some [], style, false⟩ =
        .ok (vs, q) ∧
      collectArgs pf d2 n found k ⟨post, none, style, false⟩ =
        .ok (vs, q)) := by
  intro k found
  cases k with
  | zero => exact Or.inr (Or.inl ⟨[], rfl, rfl⟩)
  | succ m =>
    rcases hna : Parser.next_arg ⟨post, none, style, false⟩ with ⟨oa, q⟩
    cases oa with
    | none =>
      have hL : collectArgs pf d1 n found (m + 1)
          ⟨post, some [], style, false⟩ =
          .error (.InsufficientArguments d1 n found) := by
        simp only [collectArgs]
        rw [next_arg_cur_empty, hna]
      have hR : collectArgs pf d2 n found (m + 1)
          ⟨post, none, style, false⟩ =
          .error (.InsufficientArguments d2 n found) := by
        simp only [collectArgs]
        rw [hna]
      exact Or.inl ⟨.InsufficientArguments d1 n found,
        .InsufficientArguments d2 n found, hL, hR, rfl⟩
    | some a =>
      have hL : collectArgs pf d1 n found (m + 1)
          ⟨post, some [], style, false⟩ =
          (match pf a with
           | .error e => .error (.FailedParse d1 e)
           | .ok v =>
             match collectArgs pf d1 n (found + 1) m q with
             | .error e => .error e
             | .ok (vs, q2) => .ok (v :: vs, q2)) := by
        simp only [collectArgs]
        rw [next_arg_cur_empty, hna]
      have hR : collectArgs pf d2 n found (m + 1)
          ⟨post, none, style, false⟩ =
          (match pf a with
           | .error e => .error (.FailedParse d2 e)
           | .ok v =>
             match collectArgs pf d2 n (found + 1) m q with
             | .error e => .error e
             | .ok (vs, q2) => .ok (v :: vs, q2)) := by
        simp only [collectArgs]
        rw [hna]
      rw [hL, hR]
      rcases hpf : pf a with e | v
      · exact Or.inl ⟨.FailedParse d1 e, .FailedParse d2 e, rfl, rfl, rfl⟩
      · have hrec := collectArgs_disp pf d1 d2 n m (found + 1) q
        rcases h1 : collectArgs pf d1 n (found + 1) m q with e1 | ⟨vs1, q1⟩ <;>
          rcases h2 : collectArgs pf d2 n (found + 1) m q with e2 | ⟨vs2, q2⟩ <;>
          rw [h1, h2] at hrec
        · exact Or.inl ⟨e1, e2, rfl, rfl, hrec⟩
        · exact False.elim hrec
        · exact False.elim hrec
        · have heq : (vs1, q1) = (vs2, q2) := hrec
          injection heq with hv hq
          subst hv
          subst hq
          exact Or.inr (Or.inr ⟨v :: vs1, q1, rfl, rfl⟩)

theorem runOpt_cont_rel (reg : Registry) (o : OptB) (d1 d2 : Str)
    (post : List Str) (style : ParsingStyle) (r : Record)
    (used : List Nat) (fc fuel : Nat) :
    resEquiv
      (match runOpt o d1 ⟨post, some [], style, false⟩ r used with
       | .error e => .error e
       | .ok (r2, q2, used2) => parseLoop reg r2 fc used2 q2 fuel)
      (match runOpt o d2 ⟨post, none, style, false⟩ r used with
       | .error e => .error e
       | .ok (r2, q2, used2) => parseLoop reg r2 fc used2 q2 fuel) := by
  cases ha : o.action with
  | Count =>
    simp only [runOpt, ha]
    rw [parseLoop_cur_empty]
    exact resEquiv_refl _
  | Switch =>
    simp only [runOpt, ha]
    rw [parseLoop_cur_empty]
    exact resEquiv_refl _
  | Push m | SetField m | SetOption m =>
    simp only [runOpt, ha]
    cases htl : m.tuple_len with
    | none =>
      rcases hna : Parser.next_arg ⟨post, none, style, false⟩ with ⟨oa, q⟩
      cases oa with
      | none =>
        have hacqL : acquireValue m d1 ⟨post, some [], style, false⟩ =
            .error (.MissingArgument d1) := by
          simp only [acquireValue, htl]
          rw [next_arg_cur_empty, hna]
        have hacqR : acquireValue m d2 ⟨post, none, style, false⟩ =
            .error (.MissingArgument d2) := by
          simp only [acquireValue, htl]
          rw [hna]
        rw [hacqL, hacqR]
        exact rfl
      | some a =>
        have hacqL : acquireValue m d1 ⟨post, some [], style, false⟩ =
            (match m.parse_fn a with
             | .error e => .error (.FailedParse d1 e)
             | .ok v => .ok (.scalar v, q)) := by
          simp only [acquireValue, htl]
          rw [next_arg_cur_empty, hna]
        have hacqR : acquireValue m d2 ⟨post, none, style, false⟩ =
            (match m.parse_fn a with
             | .error e => .error (.FailedParse d2 e)
             | .ok v => .ok (.scalar v, q)) := by
          simp only [acquireValue, htl]
          rw [hna]
        rw [hacqL, hacqR]
        rcases hpf : m.parse_fn a with e | v
        · exact rfl
        · exact resEquiv_refl _
    | some nn =>
      simp only [acquireValue, htl]
      rcases collectArgs_rel m.parse_fn d1 d2 nn post style nn 0 with
        ⟨e1, e2, h1, h2, hs⟩ | ⟨vs, h1, h2⟩ | ⟨vs, q, h1, h2⟩
      · rw [h1, h2]
        exact hs
      · rw [h1, h2]
        show resEquiv
          (parseLoop reg _ fc _ ⟨post, some [], style, false⟩ fuel)
          (parseLoop reg _ fc _ ⟨post, none, style, false⟩ fuel)
        rw [parseLoop_cur_empty]
        exact resEquiv_refl _
      · rw [h1, h2]
        exact resEquiv_refl _

theorem finish_ok_of_no_requireds (reg : Registry) (r : Record)
    (used : List Nat) (hreq : reg.requireds = []) :
    finish reg r used = .ok r := by
  unfold finish
  rw [hreq]
  split <;> rfl

theorem head_ne_of_not_prefix {a : Str}
    (h : List.isPrefixOf ['-'] a = false) : a.head? ≠ some '-' := by
  intro hcontra
  cases a with
  | nil => simp at hcontra
  | cons x xs =>
    simp at hcontra
    subst hcontra
    simp [List.isPrefixOf] at h

theorem next_opt_free_any_term (a : Str) (rest : List Str)
    (style : ParsingStyle) (term : Bool) (ha : a.head? ≠ some '-') :
    ∃ term2, Parser.next_opt ⟨a :: rest, none, style, term⟩ =
      (some (Opt.Free a), ⟨rest, none, style, term2⟩) := by
  cases term with
  | true => exact ⟨true, next_opt_term (a :: rest) none style (Or.inl rfl)⟩
  | false =>
    exact ⟨decide (style = ParsingStyle.StopAtFirstFree),
      next_opt_free a rest none style (Or.inl rfl) ha⟩

theorem c5_loop (reg : Registry) (ca : FreeSlot) (style : ParsingStyle)
    (hca : reg.catchAll = some ca)
    (hreq : reg.requireds = [])
    (hslots : ∀ s ∈ reg.frees,
      s.action = FreeAction.SetField ∧ s.parse = Except.ok)
    (hcaact : ca.action = FreeAction.Push) (hcap : ca.parse = Except.ok)
    (hnodup : ((reg.frees.map FreeSlot.field) ++ [ca.field]).Nodup) :
    ∀ (args : List Str) (r : Record) (fc : Nat) (used : List Nat)
      (term : Bool) (fuel : Nat),
      (∀ a ∈ args, List.isPrefixOf ['-'] a = false) →
      (∀ s ∈ reg.frees, s.field < r.length) → ca.field < r.length →
      ∃ r2 : Record,
        parseLoop reg r fc used ⟨args, none, style, term⟩
          (args.length + fuel + 1) = .ok r2 ∧
        r2.length = r.length ∧
        (∀ (j : Nat) (hj : j < reg.frees.length), fc ≤ j →
          j - fc < args.length →
          Record.get r2 ((reg.frees.get ⟨j, hj⟩).field) =
            .vVal (.scalar (args.getD (j - fc) []))) ∧
        Record.getList r2 ca.field =
          Record.getList r ca.field ++
            ((args.drop (reg.frees.length - fc)).map Value.scalar) ∧
        (∀ f : Nat,
          (∀ (j : Nat) (hj : j < reg.frees.length), fc ≤ j →
            f ≠ (reg.frees.get ⟨j, hj⟩).field) →
          f ≠ ca.field → Record.get r2 f = Record.get r f) := by
  have hF : (reg.frees.map FreeSlot.field).Nodup :=
    (List.nodup_append.mp hnodup).1
  have hdisj : ∀ s ∈ reg.frees, s.field ≠ ca.field := by
    intro s hs heq
    have hmem : s.field ∈ reg.frees.map FreeSlot.field :=
      List.mem_map_of_mem FreeSlot.field hs
    have := (List.nodup_append.mp hnodup).2.2 hmem
    simp [heq] at this
  have hinj : ∀ (i j : Nat) (hi : i < reg.frees.length)
      (hj : j < reg.frees.length), i ≠ j →
      (reg.frees.get ⟨i, hi⟩).field ≠ (reg.frees.get ⟨j, hj⟩).field := by
    intro i j hi hj hne heq
    have hi2 : i < (reg.frees.map FreeSlot.field).length := by simpa using hi
    have hj2 : j < (reg.frees.map FreeSlot.field).length := by simpa using hj
    have h1 : (reg.frees.map FreeSlot.field).get ⟨i, hi2⟩ =
        (reg.frees.map FreeSlot.field).get ⟨j, hj2⟩ := by
      rw [List.get_map, List.get_map]
      exact heq
    have h2 := (hF.get_inj_iff).mp h1
    exact hne (congrArg Fin.val h2)
  intro args
  induction args with
  | nil =>
    intro r fc used term fuel _ _ _
    refine ⟨r, ?_, rfl, ?_, ?_, ?_⟩
    · have hno : Parser.next_opt ⟨[], none, style, term⟩ =
          (none, ⟨[], none, style, term⟩) := by
        cases term with
        | false => exact next_opt_nil none style (Or.inl rfl)
        | true => exact next_opt_term [] none style (Or.inl rfl)
      rw [show (List.length ([] : List Str)) + fuel + 1 = fuel + 1 by simp,
        parseLoop_none reg r fc used _ _ fuel hno]
      exact finish_ok_of_no_requireds reg r used hreq
    · intro j hj hfcj hlt
      simp at hlt
    · simp
    · intro f _ _
      rfl
  | cons a rest ih =>
    intro r fc used term fuel hargs hrange hcar
    have hhead : a.head? ≠ some '-' :=
      head_ne_of_not_prefix (hargs a (List.mem_cons_self a rest))
    obtain ⟨term2, hstep⟩ := next_opt_free_any_term a rest style term hhead
    have hlen1 : (a :: rest).length + fuel + 1 =
        (rest.length + (fuel + 1)) + 1 := by
      rw [List.length_cons]
      omega
    rw [hlen1, parseLoop_some reg r fc used _ _ (rest.length + (fuel + 1))
      _ hstep]
    have hcond : reg.frees.length ≠ 0 ∨ reg.catchAll.isSome = true :=
      Or.inr (by rw [hca]; rfl)
    by_cases hfc : fc < reg.frees.length
    · obtain ⟨hact, hpar⟩ := hslots _ (List.get_mem reg.frees fc hfc)
      have hstep2 : parseStep reg r fc used (Opt.Free a)
          ⟨rest, none, style, term2⟩ =
          .cont (r.set (reg.frees.get ⟨fc, hfc⟩).field (.vVal (.scalar a)))
            (fc + 1)
            (markUsed used (reg.frees.get ⟨fc, hfc⟩).required
              (reg.frees.get ⟨fc, hfc⟩).field)
            ⟨rest, none, style, term2⟩ := by
        have hpar2 : (reg.frees[fc]).parse = Except.ok := hpar
        have hact2 : (reg.frees[fc]).action = FreeAction.SetField := hact
        simp only [parseStep]
        rw [if_pos hcond, dif_pos hfc]
        simp [runFreeSlot, hpar2, hact2]
      rw [hstep2]
      obtain ⟨r2, hloop, hlen, hvals, hcav, hframe⟩ :=
        ih (r.set (reg.frees.get ⟨fc, hfc⟩).field (.vVal (.scalar a)))
          (fc + 1)
          (markUsed used (reg.frees.get ⟨fc, hfc⟩).required
            (reg.frees.get ⟨fc, hfc⟩).field)
          term2 fuel
          (fun b hb => hargs b (List.mem_cons_of_mem a hb))
          (fun s hs => by rw [List.length_set]; exact hrange s hs)
          (by rw [List.length_set]; exact hcar)
      refine ⟨r2, hloop, by rw [hlen, List.length_set], ?_, ?_, ?_⟩
      · intro j hj hfcj hlt
        by_cases hjeq : j = fc
        · have hfin : (⟨j, hj⟩ : Fin reg.frees.length) = ⟨fc, hfc⟩ :=
            Fin.ext hjeq
          rw [hfin, hjeq, Nat.sub_self, List.getD_cons_zero]
          have hother : ∀ (j' : Nat) (hj' : j' < reg.frees.length),
              fc + 1 ≤ j' →
              (reg.frees.get ⟨fc, hfc⟩).field ≠
                (reg.frees.get ⟨j', hj'⟩).field := by
            intro j' hj' hge
            exact hinj fc j' hfc hj' (by omega)
          have hv := hframe (reg.frees.get ⟨fc, hfc⟩).field hother
            (hdisj _ (List.get_mem reg.frees fc hfc))
          rw [hv, Record.get_set_self _ _ _ (hrange _
            (List.get_mem reg.frees fc hfc))]
        · have hj1 : fc + 1 ≤ j := by omega
          have hlt' : j - (fc + 1) < rest.length := by
            rw [List.length_cons] at hlt
            omega
          have hv := hvals j hj hj1 hlt'
          rw [hv]
          have hidx : j - fc = (j - (fc + 1)) + 1 := by omega
          rw [hidx, List.getD_cons_succ]
      · rw [hcav]
        have hne : (reg.frees.get ⟨fc, hfc⟩).field ≠ ca.field :=
          hdisj _ (List.get_mem reg.frees fc hfc)
        have hgl : Record.getList
            (r.set (reg.frees.get ⟨fc, hfc⟩).field (.vVal (.scalar a)))
            ca.field = Record.getList r ca.field := by
          unfold Record.getList
          rw [Record.get_set_ne _ _ _ _ hne]
        rw [hgl]
        congr 1
        have hd : reg.frees.length - fc = (reg.frees.length - (fc + 1)) + 1 :=
          by omega
        rw [hd, List.drop_succ_cons]
      · intro f hfs hfca
        rw [hframe f (fun j' hj' hge => hfs j' hj' (by omega)) hfca]
        exact Record.get_set_ne _ _ _ _ (Ne.symm (hfs fc hfc le_rfl))
    · have hstep2 : parseStep reg r fc used (Opt.Free a)
          ⟨rest, none, style, term2⟩ =
          .cont (r.set ca.field
              (.vList (Record.getList r ca.field ++ [.scalar a])))
            fc (markUsed used ca.required ca.field)
            ⟨rest, none, style, term2⟩ := by
        simp only [parseStep]
        rw [if_pos hcond, dif_neg hfc, hca]
        simp [runFreeSlot, hcap, hcaact]
      rw [hstep2]
      obtain ⟨r2, hloop, hlen, hvals, hcav, hframe⟩ :=
        ih (r.set ca.field
            (.vList (Record.getList r ca.field ++ [.scalar a])))
          fc (markUsed used ca.required ca.field) term2 fuel
          (fun b hb => hargs b (List.mem_cons_of_mem a hb))
          (fun s hs => by rw [List.length_set]; exact hrange s hs)
          (by rw [List.length_set]; exact hcar)
      refine ⟨r2, hloop, by rw [hlen, List.length_set], ?_, ?_, ?_⟩
      · intro j hj hfcj hlt
        omega
      · rw [hcav]
        have h0 : reg.frees.length - fc = 0 := by omega
        have hgl : Record.getList
            (r.set ca.field
              (.vList (Record.getList r ca.field ++ [.scalar a])))
            ca.field = Record.getList r ca.field ++ [.scalar a] := by
          unfold Record.getList
          rw [Record.get_set_self _ _ _ hcar]
        rw [hgl, h0]
        simp
      · intro f hfs hfca
        rw [hframe f hfs hfca]
        exact Record.get_set_ne _ _ _ _ (Ne.symm hfca)

theorem foldr_len_aux (args : List Str) :
    args.foldr (fun a n => a.length + 1 + n) 0 =
      args.length + args.foldr (fun a n => a.length + n) 0 := by
  induction args with
  | nil => rfl
  | cons a rest ih =>
    simp only [List.foldr_cons, List.length_cons, ih]
    omega

theorem buildFieldsGo_append (xs ys : List FieldDesc) (j : Nat)
    (st : BuildSt) :
    buildFieldsGo j (xs ++ ys) st =
      match buildFieldsGo j xs st with
      | .error e => .error e
      | .ok st2 => buildFieldsGo (j + xs.length) ys st2 := by
  induction xs generalizing j st with
  | nil => simp [buildFieldsGo]
  | cons x xs ih =>
    simp only [List.cons_append, buildFieldsGo]
    rcases hb : buildField j x st with e | st1
    · rfl
    · show buildFieldsGo (j + 1) (xs ++ ys) st1 =
        match buildFieldsGo (j + 1) xs st1 with
        | .error e => .error e
        | .ok st2 => buildFieldsGo (j + (x :: xs).length) ys st2
      have hn : j + (x :: xs).length = j + 1 + xs.length := by
        rw [List.length_cons]
        omega
      rw [hn]
      exact ih (j + 1) st1

theorem buildField_command_err (i : Nat) (d : FieldDesc) (st : BuildSt)
    (hc : d.isCommand = true) (hf : st.frees.isEmpty = false) :
    ∃ e, buildField i d st = .error e := by
  unfold buildField
  rw [if_pos hc]
  by_cases hcmd : st.command.isSome = true
  · rw [if_pos hcmd]
    exact ⟨_, rfl⟩
  · rw [if_neg hcmd, if_pos (by simp [hf])]
    exact ⟨_, rfl⟩

theorem buildField_free_err (i : Nat) (d : FieldDesc) (st : BuildSt)
    (hc : d.isCommand = false) (hf : d.isFree = true)
    (hlast : lastIsPush st.frees = true) :
    ∃ e, buildField i d st = .error e := by
  unfold buildField
  rw [if_neg (by simp [hc]), if_pos hf]
  by_cases hcmd : st.command.isSome = true
  · rw [if_pos hcmd]
    exact ⟨_, rfl⟩
  · rw [if_neg hcmd, if_pos hlast]
    exact ⟨_, rfl⟩

theorem buildField_plain_frees (i : Nat) (d : FieldDesc) (st st2 : BuildSt)
    (hc : d.isCommand = false) (hf : d.isFree = false)
    (h : buildField i d st = .ok st2) :
    st2.frees = st.frees ∧ st2.command = st.command := by
  unfold buildField at h
  rw [if_neg (by simp [hc]), if_neg (by simp [hf])] at h
  repeat' first
    | (injection h with h2; subst h2; exact ⟨rfl, rfl⟩)
    | simp at h
    | split at h

theorem buildField_free_ok (i : Nat) (d : FieldDesc) (st st2 : BuildSt)
    (hc : d.isCommand = false) (hf : d.isFree = true)
    (h : buildField i d st = .ok st2) :
    st2.frees = st.frees ++
      [⟨i, d.fname, FreeAction.infer d, d.pf, d.required, d.help⟩] ∧
    st2.command = st.command := by
  unfold buildField at h
  rw [if_neg (by simp [hc]), if_pos hf] at h
  repeat' first
    | (injection h with h2; subst h2; exact ⟨rfl, rfl⟩)
    | simp at h
    | split at h

theorem lastIsPush_ne_nil {fs : List FreeSlot}
    (h : lastIsPush fs = true) : fs.isEmpty = false := by
  cases fs with
  | nil => simp [lastIsPush] at h
  | cons a as => rfl

theorem lastIsPush_concat (fs : List FreeSlot) (s : FreeSlot) :
    lastIsPush (fs ++ [s]) = (s.action == FreeAction.Push) := by
  unfold lastIsPush
  rw [List.getLast?_concat]

theorem go_push_not_ok (mid : List FieldDesc) :
    ∀ (j : Nat) (st : BuildSt) (d2 : FieldDesc) (post : List FieldDesc)
      (st2 : BuildSt), lastIsPush st.frees = true →
      d2.isCommand = false → d2.isFree = true →
      buildFieldsGo j (mid ++ d2 :: post) st ≠ .ok st2 := by
  induction mid with
  | nil =>
    intro j st d2 post st2 hlast hc hf h
    rw [List.nil_append] at h
    obtain ⟨e, he⟩ := buildField_free_err j d2 st hc hf hlast
    simp only [buildFieldsGo, he] at h
    simp at h
  | cons d mid ih =>
    intro j st d2 post st2 hlast hc hf h
    rw [List.cons_append] at h
    simp only [buildFieldsGo] at h
    rcases hb : buildField j d st with e | st1
    · rw [hb] at h
      simp at h
    · rw [hb] at h
      by_cases hdc : d.isCommand = true
      · obtain ⟨e, he⟩ := buildField_command_err j d st hdc
          (lastIsPush_ne_nil hlast)
        rw [he] at hb
        simp at hb
      · by_cases hdf : d.isFree = true
        · obtain ⟨e, he⟩ := buildField_free_err j d st (by simpa using hdc)
            hdf hlast
          rw [he] at hb
          simp at hb
        · obtain ⟨hfr, _⟩ := buildField_plain_frees j d st st1
            (by simpa using hdc) (by simpa using hdf) hb
          exact ih (j + 1) st1 d2 post st2 (by rw [hfr]; exact hlast) hc hf h

/-- C5: free-slot filling order and the Vec-last restriction.  Part 1:
for every registry whose free slots are plain set-field slots followed
by an accumulating catch-all (the shape `build` produces for scalar
`free` fields followed by a final `Vec` `free` field), parsing a list of
free arguments succeeds, assigns the j-th argument to the j-th fixed
slot in declaration order, and appends the arguments beyond the fixed
slots to the catch-all field in encounter order.  Part 2: a field
descriptor list in which an accumulating (`Vec`-shaped) `free` field is
followed, after any further descriptors, by another `free` field is
rejected by registry construction — `build` never succeeds on it. -/
theorem c5_free_slot_filling_and_vec_last :
    (∀ (reg : Registry) (ca : FreeSlot) (style : ParsingStyle)
      (args : List Str),
      reg.catchAll = some ca → reg.requireds = [] →
      (∀ s ∈ reg.frees,
        s.action = FreeAction.SetField ∧ s.parse = Except.ok) →
      ca.action = FreeAction.Push → ca.parse = Except.ok →
      ((reg.frees.map FreeSlot.field) ++ [ca.field]).Nodup →
      (∀ a ∈ args, List.isPrefixOf ['-'] a = false) →
      (∀ s ∈ reg.frees, s.field < reg.init.length) →
      ca.field < reg.init.length →
      ∃ r2 : Record, parseArgs reg args style = .ok r2 ∧
        (∀ (j : Nat) (hj : j < reg.frees.length), j < args.length →
          Record.get r2 ((reg.frees.get ⟨j, hj⟩).field) =
            .vVal (.scalar (args.getD j []))) ∧
        Record.getList r2 ca.field =
          Record.getList reg.init ca.field ++
            ((args.drop reg.frees.length).map Value.scalar)) ∧
    (∀ (pre mid post : List FieldDesc) (d1 d2 : FieldDesc)
      (table : List (Str × SubParse)) (reg : Registry),
      d1.isCommand = false → d1.isFree = true →
      FreeAction.infer d1 = FreeAction.Push →
      d2.isCommand = false → d2.isFree = true →
      build (pre ++ d1 :: (mid ++ d2 :: post)) table ≠ .ok reg) := by
  constructor
  · intro reg ca style args hca hreq hslots hcaact hcap hnodup hargs
      hrange hcar
    obtain ⟨r2, hloop, hlen, hvals, hcav, hframe⟩ :=
      c5_loop reg ca style hca hreq hslots hcaact hcap hnodup args
        reg.init 0 [] false (args.foldr (fun a n => a.length + n) 0)
        hargs hrange hcar
    refine ⟨r2, ?_, ?_, ?_⟩
    · have hsz : (Parser.new args style).size + 1 =
          args.length + (args.foldr (fun a n => a.length + n) 0) + 1 := by
        simp [Parser.size, Parser.new, foldr_len_aux]
      unfold parseArgs parseRegistry
      rw [hsz]
      exact hloop
    · intro j hj hjlt
      have hv := hvals j hj (Nat.zero_le j) (by simpa using hjlt)
      simpa using hv
    · simpa using hcav
  · intro pre mid post d1 d2 table reg hc1 hf1 hpush hc2 hf2 h
    unfold build at h
    rcases hbf : buildFields (pre ++ d1 :: (mid ++ d2 :: post)) with e | st
    · rw [hbf] at h
      simp at h
    · unfold buildFields at hbf
      rw [buildFieldsGo_append] at hbf
      rcases hpre : buildFieldsGo 0 pre ⟨[], [], [], none, [], [], []⟩
        with e | st0
      · rw [hpre] at hbf
        simp at hbf
      · rw [hpre] at hbf
        simp only [buildFieldsGo] at hbf
        rcases hd1 : buildField (0 + pre.length) d1 st0 with e | st1
        · rw [hd1] at hbf
          simp at hbf
        · rw [hd1] at hbf
          obtain ⟨hfr, _⟩ := buildField_free_ok (0 + pre.length) d1 st0 st1
            hc1 hf1 hd1
          have hlast : lastIsPush st1.frees = true := by
            rw [hfr, lastIsPush_concat]
            simp [hpush]
          exact go_push_not_ok mid (0 + pre.length + 1) st1 d2 post st
            hlast hc2 hf2 hbf

theorem c5_witness :
    (∃ r2 : Record,
      parseArgs regFrees
        ["one".toList, "two".toList, "three".toList, "four".toList,
          "five".toList] ParsingStyle.AllOptions = .ok r2 ∧
      (∀ (j : Nat) (hj : j < regFrees.frees.length),
        j < ["one".toList, "two".toList, "three".toList, "four".toList,
          "five".toList].length →
        Record.get r2 ((regFrees.frees.get ⟨j, hj⟩).field) =
          .vVal (.scalar (["one".toList, "two".toList, "three".toList,
            "four".toList, "five".toList].getD j []))) ∧
      Record.getList r2 3 =
        Record.getList regFrees.init 3 ++
          ((["one".toList, "two".toList, "three".toList, "four".toList,
            "five".toList].drop regFrees.frees.length).map
            Value.scalar)) ∧
    build [descHelp, descVecFree, descScalarFree] [] ≠ .ok regFrees := by
  refine ⟨c5_free_slot_filling_and_vec_last.1 regFrees
      ⟨3, "rest".toList, FreeAction.Push, okParse, false, none⟩
      ParsingStyle.AllOptions _ (by rfl) (by rfl) ?_ (by rfl) (by rfl)
      (by decide) (by decide) ?_ (by decide),
    c5_free_slot_filling_and_vec_last.2 [descHelp] [] [] descVecFree
      descScalarFree [] regFrees (by rfl) (by rfl) (by rfl) (by rfl)
      (by rfl)⟩
  · intro s hs
    simp only [regFrees, List.mem_cons, List.not_mem_nil, or_false] at hs
    rcases hs with rfl | rfl | rfl <;> exact ⟨rfl, rfl⟩
  · intro s hs
    simp only [regFrees, List.mem_cons, List.not_mem_nil, or_false] at hs
    rcases hs with rfl | rfl | rfl <;> decide

/-- C7 (code bug): OptionsCore leniency.  The relaxations that do hold
are exhibited on the registry the OptionsCore derive constructs for a
required `Option<String>` field `req` and a `bool` field `help`: no
automatic short names are assigned, and unrecognized long options
(`--bogus`), unrecognized short options (`-x`) and free arguments beyond
the declared slots (`extra`) are silently skipped.  But contrary to the
claim (and to the trait documentation in src/lib.rs, lines 395-402), the
OptionsCore derive *does* apply the implicit help flag: its construction
loop (derive lines 325-327) marks the `help` field as a help flag
exactly as the Options derive, so `--help` alone succeeds and waives the
required check, while an empty argument list still reports the missing
required option. -/
theorem c7_core_leniency_and_help_flag_bug :
    ∃ reg : Registry, buildCore [descReq, descHelp] [] = .ok reg ∧
      (∀ o ∈ reg.opts, o.short = none) ∧
      parseCoreArgs reg
        ["--bogus".toList, "-x".toList, "extra".toList, "--req".toList,
          "value".toList] ParsingStyle.AllOptions =
        .ok [.vOpt (some (.scalar "value".toList)), .vBool false] ∧
      reg.helpFlags = [1] ∧
      parseCoreArgs reg ["--help".toList] ParsingStyle.AllOptions =
        .ok [.vOpt none, .vBool true] ∧
      parseCoreArgs reg [] ParsingStyle.AllOptions =
        .error (.MissingRequired "--req".toList) :=
  ⟨_, rfl, by decide, rfl, rfl, rfl, rfl⟩

/-- C10 (amended): short/long form equivalence up to error displays.
For a binding carrying both a short character and a long name (a single
generated match arm covers both tokens), replacing an occurrence of the
short form in option position by the long form yields the same parse
outcome up to the option-display string embedded in errors
(`resEquiv`): identical records on success, and errors differing at most
in the reported option form (`-c` against `--name`). -/
theorem c10_short_long_equiv (reg : Registry) (r : Record) (fc : Nat)
    (used : List Nat) (fuel : Nat) (post : List Str)
    (style : ParsingStyle) (cur0 : Option (List Char)) (o : OptB)
    (c : Char) (l : Str)
    (hcur : cur0 = none ∨ cur0 = some [])
    (hshort : findShort reg.opts c = some o)
    (hlong : findLong reg.opts l = some o)
    (hc : c ≠ '-') (hl : l ≠ []) (hsp : splitAtEq l = none) :
    resEquiv
      (parseLoop reg r fc used
        ⟨['-', c] :: post, cur0, style, false⟩ (fuel + 1))
      (parseLoop reg r fc used
        ⟨('-' :: '-' :: l) :: post, cur0, style, false⟩ (fuel + 1)) := by
  rw [parseLoop_some reg r fc used _ ⟨post, some [], style, false⟩ fuel _
      (next_opt_short c [] post cur0 style hcur hc),
    parseLoop_some reg r fc used _ ⟨post, none, style, false⟩ fuel _
      (next_opt_long l post cur0 style hcur hl hsp)]
  simp only [parseStep, hshort, hlong]
  have hrel := runOpt_cont_rel reg o (Opt.to_string (Opt.Short c))
    (Opt.to_string (Opt.Long l)) post style r used fc fuel
  cases h1 : runOpt o (Opt.to_string (Opt.Short c))
      ⟨post, some [], style, false⟩ r used with
  | error e1 =>
    cases h2 : runOpt o (Opt.to_string (Opt.Long l))
        ⟨post, none, style, false⟩ r used with
    | error e2 =>
      rw [h1, h2] at hrel
      simpa [resEquiv] using hrel
    | ok b =>
      rw [h1, h2] at hrel
      simpa [resEquiv] using hrel
  | ok b1 =>
    cases h2 : runOpt o (Opt.to_string (Opt.Long l))
        ⟨post, none, style, false⟩ r used with
    | error e2 =>
      rw [h1, h2] at hrel
      simpa [resEquiv] using hrel
    | ok b2 =>
      rw [h1, h2] at hrel
      obtain ⟨r1, q1, u1⟩ := b1
      obtain ⟨r2, q2, u2⟩ := b2
      exact hrel

/-- Counterexample to C10 as stated: on the `file` binding of `regFile`
(short `-f`, long `--file`), the argument lists `["-f"]` and
`["--file"]` do not yield an equal parse result: both fail for a
missing value, but the errors carry the different option displays. -/
theorem c10_counterexample :
    parseArgs regFile ["-f".toList] ParsingStyle.AllOptions =
      .error (.MissingArgument "-f".toList) ∧
    parseArgs regFile ["--file".toList] ParsingStyle.AllOptions =
      .error (.MissingArgument "--file".toList) ∧
    Err.MissingArgument "-f".toList ≠ Err.MissingArgument "--file".toList :=
  ⟨rfl, rfl, by decide⟩

/-- Witness for C10 (amended) on `regFile`: the two single-token
argument lists are related by `resEquiv`. -/
theorem c10_witness :
    resEquiv
      (parseLoop regFile regFile.init 0 []
        ⟨[['-', 'f']], none, ParsingStyle.AllOptions, false⟩ 1)
      (parseLoop regFile regFile.init 0 []
        ⟨["--file".toList], none, ParsingStyle.AllOptions, false⟩ 1) :=
  c10_short_long_equiv regFile regFile.init 0 [] 0 []
    ParsingStyle.AllOptions none
    ⟨0, "file".toList, .SetOption ⟨okParse, none⟩, some "file".toList,
      some 'f', false, false, none, none, none⟩
    'f' "file".toList (Or.inl rfl) rfl rfl (by decide) (by decide) rfl

end Gumdrop
